import Mathlib

/-!
Verification of the vsix-mirror-install repository's reconciliation and
version-resolution engine against its natural-language specification.

The repository ships the CLI entry point (`src/index.ts`), the unit tests
(`src/lib/install-plan.test.ts`) and documentation, but the library modules
`src/lib/install-plan.ts`, the version comparator and the release resolver
are not part of the source tree.  Those components are therefore modelled
from the specification (sections 4.1-4.3 of spec.md, together with the
behaviour pinned down by the shipped unit tests); the CLI argument handling
and `main` dispatch are embedded directly from `src/index.ts`.
-/

namespace VsixMirror

/-! ## Definitions -/

/-! ### VersionOrdering (spec section 4.1) -/

/-- Modelled from the spec: the structured form of a version string,
numeric `major.minor.patch` with an optional prerelease tag
(the comparator implementation is not under `src/`). -/

structure SemVer where
  major : Nat
  minor : Nat
  patch : Nat
  prerelease : Option (List Char)
deriving Repr, DecidableEq

/-- Numeric value of a list of ASCII digits; `none` when the list is empty
or contains a non-digit character. -/

def parseNatStrict (l : List Char) : Option Nat :=
  if l.isEmpty then none
  else if l.all Char.isDigit then some (l.foldl (fun n c => n * 10 + (c.toNat - 48)) 0)
  else none

/-- Split a character list at every occurrence of the separator `c`. -/

def splitOnChar (c : Char) : List Char → List (List Char)
  | [] => [[]]
  | x :: xs =>
    let r := splitOnChar c xs
    if x = c then [] :: r
    else
      match r with
      | [] => [[x]]
      | g :: gs => (x :: g) :: gs

/-- Break a character list at the first dash: the part before it and,
when a dash is present, the part after it. -/

def breakDash : List Char → List Char × Option (List Char)
  | [] => ([], none)
  | x :: xs =>
    if x = '-' then ([], some xs)
    else
      let r := breakDash xs
      (x :: r.1, r.2)

/-- Modelled from the spec: attempt to parse a version string as a
structured release version (numeric major, minor, patch, optional
prerelease tag after a dash); the parser itself is not under `src/`. -/

def parseVersion (s : String) : Option SemVer :=
  let bp := breakDash s.data
  match splitOnChar '.' bp.1 with
  | [ma, mi, pa] =>
    match parseNatStrict ma, parseNatStrict mi, parseNatStrict pa with
    | some ma, some mi, some pa => some ⟨ma, mi, pa, bp.2⟩
    | _, _, _ => none
  | _ => none

/-- Plain lexicographic comparison of two character lists by code point. -/

def lexCompare : List Char → List Char → Ordering
  | [], [] => .eq
  | [], _ :: _ => .lt
  | _ :: _, [] => .gt
  | a :: as, b :: bs =>
    if a.toNat < b.toNat then .lt
    else if b.toNat < a.toNat then .gt
    else lexCompare as bs

/-- Modelled from the spec: prerelease comparison — a version with no
prerelease tag is greater than one with a tag, and two tags compare
lexicographically. -/

def preCompare : Option (List Char) → Option (List Char) → Ordering
  | none, none => .eq
  | none, some _ => .gt
  | some _, none => .lt
  | some p, some q => lexCompare p q

/-- Three-way comparison of natural numbers. -/

def natCompare (m n : Nat) : Ordering :=
  if m < n then .lt else if n < m then .gt else .eq

/-- Modelled from the spec: structured comparison — numeric components
left to right, then the prerelease rule. -/

def compareStruct (x y : SemVer) : Ordering :=
  (natCompare x.major y.major).then
    ((natCompare x.minor y.minor).then
      ((natCompare x.patch y.patch).then (preCompare x.prerelease y.prerelease)))

/-- Modelled from the spec: `compare(a, b)` of VersionOrdering — structured
comparison when both operands parse, otherwise plain lexicographic string
comparison for both operands (the comparator module is not under `src/`). -/

def compareVersions (a b : String) : Ordering :=
  match parseVersion a, parseVersion b with
  | some va, some vb => compareStruct va vb
  | _, _ => lexCompare a.data b.data

/-! ### ReconciliationEngine data model (spec sections 3 and 4.3, and the
shapes used by `src/lib/install-plan.test.ts`) -/

/-- An installed extension as listed by the target runtime
(`Extension` of `src/types.ts`, as used by the test file). -/

structure Extension where
  id : String
  version : String
  disabled : Bool
deriving Repr, DecidableEq

/-- A locally mirrored artifact (`SyncedVSIX` of `src/types.ts`, as used by
the test file): extension id, mirrored version, local path and the
enabled/disabled state of the extension in the reference runtime. -/

structure SyncedVSIX where
  extensionId : String
  version : String
  path : String
  sourceDisabled : Bool
deriving Repr, DecidableEq

/-- The four policy switches of `generateInstallPlan`. -/

structure PlanOptions where
  installMissing : Bool
  syncRemovals : Bool
  syncDisabled : Bool
  force : Bool
deriving Repr, DecidableEq

/-- Modelled from the spec: `force == true` is equivalent to all three other
switches set, and is expanded to this effective three-switch policy before
the algorithm runs. -/

structure EffPolicy where
  installMissing : Bool
  syncRemovals : Bool
  syncDisabled : Bool
deriving Repr, DecidableEq

/-- Expansion of the raw policy into the effective policy. -/

def effectivePolicy (o : PlanOptions) : EffPolicy :=
  ⟨o.installMissing || o.force, o.syncRemovals || o.force, o.syncDisabled || o.force⟩

/-- A plan action, tagged as in the test file's expectations:
install, update, uninstall, enable, disable. -/

inductive Action where
  | install (extensionId version vsixPath : String)
  | update (extensionId version currentVersion vsixPath : String)
  | uninstall (extensionId : String)
  | enable (extensionId : String)
  | disable (extensionId : String)
deriving Repr, DecidableEq

/-- The extension id an action is about. -/

def Action.key : Action → String
  | .install e _ _ => e
  | .update e _ _ _ => e
  | .uninstall e => e
  | .enable e => e
  | .disable e => e

/-- Lower-casing of one ASCII character, for case-insensitive id matching. -/

def lowerChar (c : Char) : Char :=
  if 'A' ≤ c ∧ c ≤ 'Z' then Char.ofNat (c.toNat + 32) else c

/-- The case-insensitive matching key of an extension id. -/

def lowerKey (s : String) : List Char :=
  s.data.map lowerChar

/-- Modelled from the spec: id matching is case-insensitive exact match on
the stable extension identity. -/

def keyEq (a b : String) : Bool :=
  lowerKey a == lowerKey b

/-- Look up an installed extension by mirrored extension id. -/

def findInstalled (installed : List Extension) (eid : String) : Option Extension :=
  installed.find? (fun i => keyEq i.id eid)

/-- Look up a mirrored artifact by installed extension id. -/

def findSynced (synced : List SyncedVSIX) (eid : String) : Option SyncedVSIX :=
  synced.find? (fun m => keyEq m.extensionId eid)

/-- Modelled from the spec: the install/update pass of the per-id decision
table — a missing id is installed when `installMissing` is on, and an
installed id is updated exactly when the mirrored version is strictly newer
(never downgrading); the engine module is not under `src/`. -/

def installUpdateAction (installed : List Extension) (e : EffPolicy)
    (m : SyncedVSIX) : Option Action :=
  match findInstalled installed m.extensionId with
  | none =>
    if e.installMissing then some (.install m.extensionId m.version m.path) else none
  | some i =>
    if compareVersions m.version i.version = .gt then
      some (.update m.extensionId m.version i.version m.path)
    else none

/-- Modelled from the spec: the enable/disable pass — with `syncDisabled` on,
an installed id at the mirrored version whose enabled state differs from the
reference runtime's is enabled or disabled to match, and a new id installed
with a disabled source additionally gets a disable action; the engine module
is not under `src/`. -/

def enableDisableAction (installed : List Extension) (e : EffPolicy)
    (m : SyncedVSIX) : Option Action :=
  if e.syncDisabled then
    match findInstalled installed m.extensionId with
    | none =>
      if e.installMissing && m.sourceDisabled then some (.disable m.extensionId) else none
    | some i =>
      if compareVersions m.version i.version = .eq && i.disabled != m.sourceDisabled then
        some (if m.sourceDisabled then .disable m.extensionId else .enable m.extensionId)
      else none
  else none

/-- Modelled from the spec: the uninstall pass — with `syncRemovals` on, an
installed id that is absent from the mirror is uninstalled; the engine module
is not under `src/`. -/

def uninstallAction (synced : List SyncedVSIX) (e : EffPolicy)
    (i : Extension) : Option Action :=
  if e.syncRemovals && (findSynced synced i.id).isNone then
    some (.uninstall i.id)
  else none

/-- Modelled from the spec: `generateInstallPlan` — the per-id decision table
evaluated independently per id, concatenated in the fixed pass order
installs/updates, then enable/disable, then uninstalls; the engine module is
not under `src/`. -/

def generateInstallPlan (installed : List Extension) (synced : List SyncedVSIX)
    (opts : PlanOptions) : List Action :=
  let e := effectivePolicy opts
  synced.filterMap (installUpdateAction installed e)
    ++ synced.filterMap (enableDisableAction installed e)
    ++ installed.filterMap (uninstallAction synced e)

/-- Modelled from the spec: `describeAction` is absent from `src/`; its
output is fixed, string for string, by the expectations of
`src/lib/install-plan.test.ts`. -/

def describeAction : Action → String
  | .install e v _ => "Install " ++ e ++ "@" ++ v
  | .update e v cur _ => "Update " ++ e ++ ": " ++ cur ++ " → " ++ v
  | .uninstall e => "Uninstall " ++ e
  | .enable e => "Enable " ++ e
  | .disable e => "Disable " ++ e

/-- Hypothetical application of one action to an installed snapshot, as in
claim C6: install adds the id at the mirrored version (enabled), update sets
the id's version, uninstall removes the id, enable/disable set the enabled
state. -/

def applyAction (installed : List Extension) : Action → List Extension
  | .install e v _ => installed ++ [⟨e, v, false⟩]
  | .update e v _ _ =>
    installed.map (fun i => if keyEq i.id e then { i with version := v } else i)
  | .uninstall e => installed.filter (fun i => !keyEq i.id e)
  | .enable e =>
    installed.map (fun i => if keyEq i.id e then { i with disabled := false } else i)
  | .disable e =>
    installed.map (fun i => if keyEq i.id e then { i with disabled := true } else i)

/-- Application of a whole plan, front to back. -/

def applyPlan (installed : List Extension) (plan : List Action) : List Extension :=
  plan.foldl applyAction installed

/-- Whether an action is an Install. -/

def Action.isInstall : Action → Bool
  | .install _ _ _ => true
  | _ => false

/-- Whether an action is an Update. -/

def Action.isUpdate : Action → Bool
  | .update _ _ _ _ => true
  | _ => false

/-- Whether an action is an Install or an Update. -/

def Action.isInstallUpdate (a : Action) : Bool :=
  a.isInstall || a.isUpdate

/-- Whether an action is an Enable or a Disable. -/

def Action.isEnableDisable : Action → Bool
  | .enable _ => true
  | .disable _ => true
  | _ => false

/-! ### Claim C6, amended: machinery for tracking one id through plan
application -/

/-- The effect of one action, keyed to the id being looked up, on the result
of that id's lookup. -/

def applyLookup : Action → Option Extension → Option Extension
  | .install e v _, none => some ⟨e, v, false⟩
  | .install _ _ _, some i => some i
  | .update _ v _ _, some i => some { i with version := v }
  | .update _ _ _ _, none => none
  | .uninstall _, _ => none
  | .enable _, some i => some { i with disabled := false }
  | .enable _, none => none
  | .disable _, some i => some { i with disabled := true }
  | .disable _, none => none

/-- The same, for an optional action. -/

def applyLookupOpt : Option Action → Option Extension → Option Extension
  | none, o => o
  | some a, o => applyLookup a o

/-! ### CompatibilityResolver (spec section 4.2) -/

/-- Modelled from the spec: one published release of a package — id, version,
compatibility range and artifact location (the resolver module is not under
`src/`). -/

structure PackageRelease where
  packageId : String
  version : String
  compatibilityRange : String
  artifactLocation : String
deriving Repr, DecidableEq

/-- Stable insertion of a release into a version-descending list. -/

def insertByVersionDesc (r : PackageRelease) :
    List PackageRelease → List PackageRelease
  | [] => [r]
  | x :: xs =>
    if compareVersions r.version x.version = .gt then r :: x :: xs
    else x :: insertByVersionDesc r xs

/-- Modelled from the spec: sort releases by version descending using
VersionOrdering (stable, so ties keep their input order and the scan is
deterministic). -/

def sortByVersionDesc : List PackageRelease → List PackageRelease
  | [] => []
  | r :: rs => insertByVersionDesc r (sortByVersionDesc rs)

/-- Result of release selection: a release, or NotFound with the two reasons
the spec distinguishes (no compatible release / package absent upstream). -/

inductive SelectResult where
  | found (r : PackageRelease)
  | noCompatible
  | packageAbsent
deriving Repr, DecidableEq

/-- Modelled from the spec: `selectRelease` — sort descending, scan
newest-first, return the first release whose range accepts the runtime
version; empty release list gives the distinct absent result.  The range
test `accepts` is a primitive predicate of this component. -/

def selectRelease (accepts : String → String → Bool)
    (releases : List PackageRelease) (runtimeVersion : String) : SelectResult :=
  if releases.isEmpty then .packageAbsent
  else
    match (sortByVersionDesc releases).find?
        (fun r => accepts r.compatibilityRange runtimeVersion) with
    | some r => .found r
    | none => .noCompatible

/-- Minor component of a `major.minor[.patch]` version string, 0 otherwise. -/

def minorOf (v : String) : Nat :=
  match splitOnChar '.' v.data with
  | [_, mi] => (parseNatStrict mi).getD 0
  | [_, mi, _] => (parseNatStrict mi).getD 0
  | _ => 0

/-- A concrete range predicate for the spec's resolver scenario: a range
`"lo-hi"` accepts a runtime version `1.M` when `lo ≤ M ≤ hi` (inclusive
bounds), matching the scenario's "accepts up to 1.50" / "up to 1.100" ranges
with 1.20 below both. -/

def scenarioAccepts (range v : String) : Bool :=
  match splitOnChar '-' range.data with
  | [lo, hi] =>
    match parseNatStrict lo, parseNatStrict hi with
    | some l, some h => decide (l ≤ minorOf v) && decide (minorOf v ≤ h)
    | _, _ => false
  | _ => false

/-! ### CLI argument parsing and dispatch (`src/index.ts`) -/

/-- The four CLI commands (`COMMANDS` in `src/index.ts`). -/

inductive Command where
  | sync
  | install
  | status
  | detect
deriving Repr, DecidableEq

/-- `COMMANDS.includes`: the command named by a positional, if any. -/

def commandOfString (s : String) : Option Command :=
  if s = "sync" then some .sync
  else if s = "install" then some .install
  else if s = "status" then some .status
  else if s = "detect" then some .detect
  else none

/-- The option values accumulated by `parseArgs` for the option table of
`parseCliArgs`. -/

structure CliValues where
  toTargets : List String
  force : Bool
  dryRun : Bool
  installMissing : Bool
  syncRemovals : Bool
  syncDisabled : Bool
  help : Bool
deriving Repr, DecidableEq

/-- The `default` entries of the option table. -/

def initCliValues : CliValues := ⟨[], false, false, false, false, false, false⟩

/-- The boolean long options of the table in `parseCliArgs`. -/

def boolOptionNames : List String :=
  ["force", "dry-run", "install-missing", "sync-removals", "sync-disabled", "help"]

/-- Setting one boolean long option. -/

def setBoolOption (v : CliValues) (name : String) : CliValues :=
  if name = "force" then { v with force := true }
  else if name = "dry-run" then { v with dryRun := true }
  else if name = "install-missing" then { v with installMissing := true }
  else if name = "sync-removals" then { v with syncRemovals := true }
  else if name = "sync-disabled" then { v with syncDisabled := true }
  else if name = "help" then { v with help := true }
  else v

/-- Split a character list at the first `'='`, when present. -/

def splitEq : List Char → Option (List Char × List Char)
  | [] => none
  | c :: cs =>
    if c = '=' then some ([], cs)
    else
      match splitEq cs with
      | none => none
      | some (a, b) => some (c :: a, b)

/-- Whether a token can serve as the value of a string option
(`node:util` accepts a lone dash and anything not starting with a dash). -/

def isOptionValueTok (t : String) : Bool :=
  match t.data with
  | '-' :: rest => rest.isEmpty
  | _ => true

/-- Whether a token is a long option (starts with a double dash). -/

def isLongTok (t : String) : Bool :=
  match t.data with
  | c1 :: c2 :: _ => c1 == '-' && c2 == '-'
  | _ => false

/-- Whether a token is a short option or short option group (a dash followed
by at least one character, but not a long option). -/

def isShortTok (t : String) : Bool :=
  match t.data with
  | c1 :: c2 :: _ => c1 == '-' && !(c2 == '-')
  | _ => false

/-- Model of `node:util`'s `parseArgs` (strict mode, positionals allowed)
specialised to the option table of `parseCliArgs` in `src/index.ts`: `--`
ends option processing, `--name=value` and `--name value` set the string
option `to` (appending, as it is `multiple`), boolean long options take no
argument, `-h` (and short groups of `h`) set help, unknown options, inline
values on booleans, and missing string values throw.  The boolean argument
records a pending `--to` waiting for its value. -/

def parseTokens : List String → Bool → CliValues → List String →
    Except String (CliValues × List String)
  | [], true, _, _ => .error "option --to argument missing"
  | [], false, v, pos => .ok (v, pos)
  | t :: rest, true, v, pos =>
    if isOptionValueTok t then
      parseTokens rest false { v with toTargets := v.toTargets ++ [t] } pos
    else .error "option --to argument missing"
  | t :: rest, false, v, pos =>
    if t = "--" then .ok (v, pos ++ rest)
    else if isLongTok t then
      match splitEq (t.data.drop 2) with
      | some (name, _value) =>
        if String.mk name = "to" then
          parseTokens rest false
            { v with toTargets := v.toTargets ++ [String.mk _value] } pos
        else if boolOptionNames.contains (String.mk name) then
          .error ("option " ++ t ++ " does not take an argument")
        else .error ("unknown option " ++ t)
      | none =>
        if String.mk (t.data.drop 2) = "to" then parseTokens rest true v pos
        else if boolOptionNames.contains (String.mk (t.data.drop 2)) then
          parseTokens rest false (setBoolOption v (String.mk (t.data.drop 2))) pos
        else .error ("unknown option " ++ t)
    else if isShortTok t then
      if (t.data.drop 1).all (fun x => x == 'h') then
        parseTokens rest false { v with help := true } pos
      else .error ("unknown option " ++ t)
    else parseTokens rest false v (pos ++ [t])

/-- The record returned by `parseCliArgs` in `src/index.ts`. -/

structure ParsedArgs where
  command : Option Command
  toTargets : List String
  force : Bool
  dryRun : Bool
  installMissing : Bool
  syncRemovals : Bool
  syncDisabled : Bool
  help : Bool
deriving Repr, DecidableEq

/-- `parseCliArgs` of `src/index.ts`: run `parseArgs`, read the command from
the first positional (null when absent or unknown), and carry the option
values through (the `??` fallbacks are no-ops given the defaults).  A thrown
`parseArgs` error surfaces as `.error`. -/

def parseCliArgs (argv : List String) : Except String ParsedArgs :=
  match parseTokens argv false initCliValues [] with
  | .error e => .error e
  | .ok (v, pos) =>
    .ok ⟨(pos.head?).bind commandOfString, v.toTargets, v.force, v.dryRun,
      v.installMissing, v.syncRemovals, v.syncDisabled, v.help⟩

/-- A call `main` makes to one of the four command runners, with the
arguments `src/index.ts` forwards. -/

inductive CommandCall where
  | syncCall (targets : List String)
  | installCall (targets : List String)
      (dryRun installMissing syncRemovals syncDisabled force : Bool)
  | statusCall (targets : List String)
  | detectCall
deriving Repr, DecidableEq

/-- Observable behaviour of `main`: whether help was printed, the explicit
exit code (none means a normal run), and the command runner invoked. -/

structure MainResult where
  showedHelp : Bool
  exitCode : Option Nat
  invoked : Option CommandCall
deriving Repr, DecidableEq

/-- `main` of `src/index.ts` after argument parsing: print help and exit 0/1
when help is requested or no command was given, otherwise dispatch to the
command runner — `sync` receives only the `to` list, `install` also receives
the five flags. -/

def mainRun (a : ParsedArgs) : MainResult :=
  if a.help || a.command.isNone then ⟨true, some (if a.help then 0 else 1), none⟩
  else
    match a.command with
    | some .sync => ⟨false, none, some (.syncCall a.toTargets)⟩
    | some .install =>
      ⟨false, none, some (.installCall a.toTargets a.dryRun a.installMissing
        a.syncRemovals a.syncDisabled a.force)⟩
    | some .status => ⟨false, none, some (.statusCall a.toTargets)⟩
    | some .detect => ⟨false, none, some .detectCall⟩
    | none => ⟨false, none, none⟩

/-- Whether a token is the long option `--name` or an inline `--name=...`. -/

def tokenSetsLong (name : String) (t : String) : Bool :=
  isLongTok t &&
    (match splitEq (t.data.drop 2) with
     | some (n, _) => n == name.data
     | none => t.data.drop 2 == name.data)

/-- Whether a token can set the help option: `--help`, `--help=...`, or a
short option group containing `h`. -/

def tokenSetsHelp (t : String) : Bool :=
  tokenSetsLong "help" t || (isShortTok t && (t.data.drop 1).contains 'h')

/-- Whether any token before the `--` terminator satisfies `f`. -/

def mentionsOpt (f : String → Bool) (argv : List String) : Bool :=
  (argv.takeWhile (fun t => t != "--")).any f

/-- Each option that is not mentioned among the option tokens of `argv`
keeps its incoming value through parsing (for `to`, provided no value is
pending). -/

def PreservesCli (argv : List String) (pending : Bool) (v v' : CliValues) : Prop :=
  (mentionsOpt (tokenSetsLong "to") argv = false → pending = false →
    v'.toTargets = v.toTargets) ∧
  (mentionsOpt (tokenSetsLong "force") argv = false → v'.force = v.force) ∧
  (mentionsOpt (tokenSetsLong "dry-run") argv = false → v'.dryRun = v.dryRun) ∧
  (mentionsOpt (tokenSetsLong "install-missing") argv = false →
    v'.installMissing = v.installMissing) ∧
  (mentionsOpt (tokenSetsLong "sync-removals") argv = false →
    v'.syncRemovals = v.syncRemovals) ∧
  (mentionsOpt (tokenSetsLong "sync-disabled") argv = false →
    v'.syncDisabled = v.syncDisabled) ∧
  (mentionsOpt tokenSetsHelp argv = false → v'.help = v.help)

/-! ## Theorems -/

/-! ### Basic facts about the comparators -/

theorem natCompare_self (m : Nat) : natCompare m m = .eq := by
  simp [natCompare]

theorem natCompare_swap (m n : Nat) : (natCompare m n).swap = natCompare n m := by
  unfold natCompare
  split_ifs <;> first | rfl | omega

theorem natCompare_eq_lt {m n : Nat} : natCompare m n = .lt ↔ m < n := by
  unfold natCompare
  split_ifs <;> simp_all

theorem natCompare_eq_eq {m n : Nat} : natCompare m n = .eq ↔ m = n := by
  unfold natCompare
  split_ifs <;> simp_all <;> omega

theorem lexCompare_refl (l : List Char) : lexCompare l l = .eq := by
  induction l with
  | nil => rfl
  | cons x xs ih => simp [lexCompare, ih]

theorem lexCompare_swap (l₁ l₂ : List Char) :
    (lexCompare l₁ l₂).swap = lexCompare l₂ l₁ := by
  induction l₁ generalizing l₂ with
  | nil => cases l₂ <;> rfl
  | cons x xs ih =>
    cases l₂ with
    | nil => rfl
    | cons y ys =>
      simp only [lexCompare]
      split_ifs <;> first | rfl | omega | exact ih ys

theorem lexCompare_cons_lt {a b : Char} {as bs : List Char} :
    lexCompare (a :: as) (b :: bs) = .lt ↔
      a.toNat < b.toNat ∨ (a.toNat = b.toNat ∧ lexCompare as bs = .lt) := by
  simp only [lexCompare]
  split_ifs with h₁ h₂
  · simp [h₁]
  · simp
    omega
  · have hab : a.toNat = b.toNat := by omega
    simp [hab]

theorem lexCompare_trans {l₁ l₂ l₃ : List Char}
    (h₁ : lexCompare l₁ l₂ = .lt) (h₂ : lexCompare l₂ l₃ = .lt) :
    lexCompare l₁ l₃ = .lt := by
  induction l₁ generalizing l₂ l₃ with
  | nil =>
    cases l₂ with
    | nil => simp [lexCompare] at h₁
    | cons y ys =>
      cases l₃ with
      | nil => simp [lexCompare] at h₂
      | cons z zs => rfl
  | cons x xs ih =>
    cases l₂ with
    | nil => simp [lexCompare] at h₁
    | cons y ys =>
      cases l₃ with
      | nil => simp [lexCompare] at h₂
      | cons z zs =>
        rw [lexCompare_cons_lt] at h₁ h₂ ⊢
        rcases h₁ with h₁ | ⟨e₁, r₁⟩ <;> rcases h₂ with h₂ | ⟨e₂, r₂⟩
        · left; omega
        · left; omega
        · left; omega
        · right; exact ⟨by omega, ih r₁ r₂⟩

theorem preCompare_refl (p : Option (List Char)) : preCompare p p = .eq := by
  cases p <;> simp [preCompare, lexCompare_refl]

theorem preCompare_swap (p q : Option (List Char)) :
    (preCompare p q).swap = preCompare q p := by
  cases p <;> cases q <;> first | rfl | exact lexCompare_swap _ _

theorem preCompare_trans {p q r : Option (List Char)}
    (h₁ : preCompare p q = .lt) (h₂ : preCompare q r = .lt) :
    preCompare p r = .lt := by
  cases p <;> cases q <;> cases r <;> simp_all [preCompare]
  exact lexCompare_trans h₁ h₂

theorem compareStruct_refl (x : SemVer) : compareStruct x x = .eq := by
  rw [compareStruct, natCompare_self, natCompare_self, natCompare_self, preCompare_refl]
  rfl

theorem compareStruct_swap (x y : SemVer) :
    (compareStruct x y).swap = compareStruct y x := by
  rw [compareStruct, compareStruct, Ordering.swap_then, Ordering.swap_then,
    Ordering.swap_then, natCompare_swap, natCompare_swap, natCompare_swap, preCompare_swap]

theorem compareStruct_trans {x y z : SemVer}
    (h₁ : compareStruct x y = .lt) (h₂ : compareStruct y z = .lt) :
    compareStruct x z = .lt := by
  simp only [compareStruct, Ordering.then_eq_lt, natCompare_eq_lt, natCompare_eq_eq] at h₁ h₂ ⊢
  rcases h₁ with h | ⟨e₁, h | ⟨e₂, h | ⟨e₃, h⟩⟩⟩ <;>
    rcases h₂ with g | ⟨f₁, g | ⟨f₂, g | ⟨f₃, g⟩⟩⟩ <;>
      first
        | exact Or.inl (by omega)
        | exact Or.inr ⟨by omega, Or.inl (by omega)⟩
        | exact Or.inr ⟨by omega, Or.inr ⟨by omega, Or.inl (by omega)⟩⟩
        | exact Or.inr ⟨by omega, Or.inr ⟨by omega, Or.inr ⟨by omega,
            preCompare_trans h g⟩⟩⟩

theorem compareVersions_refl (a : String) : compareVersions a a = .eq := by
  unfold compareVersions
  cases parseVersion a <;> simp [compareStruct_refl, lexCompare_refl]

theorem compareVersions_swap (a b : String) :
    (compareVersions a b).swap = compareVersions b a := by
  unfold compareVersions
  cases parseVersion a <;> cases parseVersion b <;>
    first | exact lexCompare_swap _ _ | exact compareStruct_swap _ _

theorem compareVersions_lt_asymm {a b : String} (h : compareVersions a b = .lt) :
    compareVersions b a = .gt := by
  rw [← compareVersions_swap, h]
  rfl

theorem compareVersions_gt_iff {a b : String} :
    compareVersions a b = .gt ↔ compareVersions b a = .lt := by
  constructor
  · intro h
    rw [← compareVersions_swap, h]
    rfl
  · intro h
    rw [← compareVersions_swap b a, h]
    rfl

/-! ### Claim C4 -/

/-- Claim C4, counterexample: `compare` of VersionOrdering is not transitive on all
version strings.  Structurally `"9.0.0" < "10.0.0"`, and lexicographically
`"10.0.0" < "5x"` (the digit `1` sorts below `5`), yet `"9.0.0" > "5x"`. -/

theorem c4_counterexample :
    compareVersions "9.0.0" "10.0.0" = .lt ∧
    compareVersions "10.0.0" "5x" = .lt ∧
    compareVersions "9.0.0" "5x" = .gt := by
  refine ⟨?_, ?_, ?_⟩ <;> decide

/-- Claim C4 (amended): VersionOrdering's compare is reflexive
(`compare(a,a) = equal`) and antisymmetric (`compare(a,b) = less` implies
`compare(b,a) = greater`) on all version strings, and it is transitive
whenever the three operands fall in a single comparison regime: either all
three parse as structured versions, or at most one of them does (so that
every pairwise comparison is the lexicographic fallback).  Unrestricted
transitivity fails, see the counterexample. -/

theorem c4_version_ordering_total (a b c : String) :
    compareVersions a a = .eq ∧
    (compareVersions a b = .lt → compareVersions b a = .gt) ∧
    ((((parseVersion a).isSome ∧ (parseVersion b).isSome ∧ (parseVersion c).isSome) ∨
        (parseVersion a = none ∧ parseVersion b = none) ∨
        (parseVersion a = none ∧ parseVersion c = none) ∨
        (parseVersion b = none ∧ parseVersion c = none)) →
      compareVersions a b = .lt → compareVersions b c = .lt →
      compareVersions a c = .lt) := by
  refine ⟨compareVersions_refl a, compareVersions_lt_asymm, ?_⟩
  intro hreg h₁ h₂
  rcases hreg with ⟨ha, hb, hc⟩ | ⟨ha, hb⟩ | ⟨ha, hc⟩ | ⟨hb, hc⟩
  · obtain ⟨va, hva⟩ := Option.isSome_iff_exists.mp ha
    obtain ⟨vb, hvb⟩ := Option.isSome_iff_exists.mp hb
    obtain ⟨vc, hvc⟩ := Option.isSome_iff_exists.mp hc
    simp only [compareVersions, hva, hvb, hvc] at h₁ h₂ ⊢
    exact compareStruct_trans h₁ h₂
  · simp only [compareVersions, ha, hb] at h₁ h₂ ⊢
    exact lexCompare_trans h₁ h₂
  · simp only [compareVersions, ha, hc] at h₁ h₂ ⊢
    cases hpb : parseVersion b <;> simp only [hpb] at h₁ h₂ <;>
      exact lexCompare_trans h₁ h₂
  · simp only [compareVersions, hb, hc] at h₁ h₂ ⊢
    cases hpa : parseVersion a <;> simp only [hpa] at h₁ h₂ <;>
      exact lexCompare_trans h₁ h₂

/-- Witness for C4: the amended totality theorem applied at the concrete
triple `"1.0.0" < "1.2.0" < "2.0.0"`, all of which parse as structured. -/

theorem c4_version_ordering_total_witness :
    ((((parseVersion "1.0.0").isSome ∧ (parseVersion "1.2.0").isSome ∧
        (parseVersion "2.0.0").isSome) ∨
      (parseVersion "1.0.0" = none ∧ parseVersion "1.2.0" = none) ∨
      (parseVersion "1.0.0" = none ∧ parseVersion "2.0.0" = none) ∨
      (parseVersion "1.2.0" = none ∧ parseVersion "2.0.0" = none)) ∧
      compareVersions "1.0.0" "1.2.0" = .lt ∧
      compareVersions "1.2.0" "2.0.0" = .lt) ∧
    compareVersions "1.0.0" "2.0.0" = .lt :=
  ⟨⟨Or.inl ⟨by decide, by decide, by decide⟩, by decide, by decide⟩,
    (c4_version_ordering_total "1.0.0" "1.2.0" "2.0.0").2.2
      (Or.inl ⟨by decide, by decide, by decide⟩) (by decide) (by decide)⟩

/-! ### Key matching facts -/

theorem keyEq_iff {a b : String} : keyEq a b = true ↔ lowerKey a = lowerKey b := by
  simp [keyEq]

theorem keyEq_refl (a : String) : keyEq a a = true :=
  keyEq_iff.mpr rfl

theorem keyEq_symm {a b : String} (h : keyEq a b = true) : keyEq b a = true :=
  keyEq_iff.mpr (keyEq_iff.mp h).symm

theorem keyEq_trans {a b c : String} (h₁ : keyEq a b = true) (h₂ : keyEq b c = true) :
    keyEq a c = true :=
  keyEq_iff.mpr ((keyEq_iff.mp h₁).trans (keyEq_iff.mp h₂))

/-- In a snapshot with case-insensitively unique ids, the lookup of a member's
key returns exactly that member. -/

theorem findInstalled_eq_some_of_mem {installed : List Extension} {i : Extension}
    {k : String} (hnd : (installed.map (fun x => lowerKey x.id)).Nodup)
    (hi : i ∈ installed) (hk : keyEq i.id k = true) :
    findInstalled installed k = some i := by
  induction installed with
  | nil => cases hi
  | cons j rest ih =>
    simp only [List.map_cons, List.nodup_cons] at hnd
    rcases List.mem_cons.mp hi with rfl | hi'
    · simp [findInstalled, List.find?, hk]
    · have hne : keyEq j.id k = false := by
        by_contra hcon
        have hj : keyEq j.id k = true := by
          cases hcase : keyEq j.id k
          · exact absurd hcase hcon
          · rfl
        have : lowerKey j.id = lowerKey i.id :=
          (keyEq_iff.mp hj).trans (keyEq_iff.mp hk).symm
        exact hnd.1 (this ▸ List.mem_map_of_mem (fun x => lowerKey x.id) hi')
      have := ih hnd.2 hi'
      simpa [findInstalled, List.find?, hne] using this

/-- Matching members of a case-insensitively unique mirrored set are equal. -/

theorem synced_eq_of_keyEq {synced : List SyncedVSIX} {m m' : SyncedVSIX}
    (hnd : (synced.map (fun x => lowerKey x.extensionId)).Nodup)
    (hm : m ∈ synced) (hm' : m' ∈ synced)
    (hk : keyEq m.extensionId m'.extensionId = true) : m = m' :=
  List.inj_on_of_nodup_map hnd hm hm' (keyEq_iff.mp hk)

/-! ### Shapes of the actions produced by each pass -/

theorem installUpdateAction_shape {installed : List Extension} {e : EffPolicy}
    {m : SyncedVSIX} {a : Action} (h : installUpdateAction installed e m = some a) :
    a.key = m.extensionId ∧ a.isInstallUpdate = true := by
  unfold installUpdateAction at h
  cases hfi : findInstalled installed m.extensionId <;> simp only [hfi] at h <;>
    split_ifs at h <;> simp only [Option.some.injEq] at h <;> subst h <;>
      simp [Action.key, Action.isInstallUpdate, Action.isInstall, Action.isUpdate]

theorem enableDisableAction_shape {installed : List Extension} {e : EffPolicy}
    {m : SyncedVSIX} {a : Action} (h : enableDisableAction installed e m = some a) :
    a.key = m.extensionId ∧ a.isEnableDisable = true := by
  unfold enableDisableAction at h
  split_ifs at h <;>
    cases hfi : findInstalled installed m.extensionId <;> simp only [hfi] at h <;>
      (try split_ifs at h) <;> cases h <;> simp [Action.key, Action.isEnableDisable]

theorem uninstallAction_shape {synced : List SyncedVSIX} {e : EffPolicy}
    {i : Extension} {a : Action} (h : uninstallAction synced e i = some a) :
    a = .uninstall i.id := by
  unfold uninstallAction at h
  split_ifs at h
  cases h
  rfl

theorem isEnableDisable_not_installUpdate {a : Action}
    (h : a.isEnableDisable = true) : a.isInstallUpdate = false := by
  cases a <;> simp_all [Action.isEnableDisable, Action.isInstallUpdate,
    Action.isInstall, Action.isUpdate]

/-! ### Claim C3 -/

/-- Claim C3: for every installed snapshot and mirrored artifact set, the plan
under policy `{installMissing: false, syncRemovals: false, syncDisabled: false,
force: true}` equals, action for action, the plan under
`{installMissing: true, syncRemovals: true, syncDisabled: true, force: false}`:
both expand to the same effective policy before the algorithm runs. -/

theorem c3_force_equivalence (installed : List Extension) (synced : List SyncedVSIX) :
    generateInstallPlan installed synced ⟨false, false, false, true⟩ =
      generateInstallPlan installed synced ⟨true, true, true, false⟩ := rfl

/-! ### Claim C10 -/

/-- Claim C10: `describeAction` is a function of the action alone and renders
exactly one fixed string shape per action type, matching the test
expectations character for character. -/

theorem c10_describe_action (e v cur p : String) :
    describeAction (.install e v p) = "Install " ++ e ++ "@" ++ v ∧
    describeAction (.update e v cur p) = "Update " ++ e ++ ": " ++ cur ++ " → " ++ v ∧
    describeAction (.uninstall e) = "Uninstall " ++ e ∧
    describeAction (.enable e) = "Enable " ++ e ∧
    describeAction (.disable e) = "Disable " ++ e ∧
    describeAction (.update "test.ext" "2.0.0" "1.0.0" "/path") =
      "Update test.ext: 1.0.0 → 2.0.0" :=
  ⟨rfl, rfl, rfl, rfl, rfl, by decide⟩

/-! ### Claim C1 -/

/-- Claim C1: no silent downgrade — for any id whose installed version is
strictly greater than its mirrored version under VersionOrdering, the plan
contains no Install and no Update action for that id, under every policy
combination (force included). -/

theorem c1_no_silent_downgrade (installed : List Extension) (synced : List SyncedVSIX)
    (opts : PlanOptions) (i : Extension) (m : SyncedVSIX)
    (hndi : (installed.map (fun x => lowerKey x.id)).Nodup)
    (hnds : (synced.map (fun x => lowerKey x.extensionId)).Nodup)
    (hi : i ∈ installed) (hm : m ∈ synced)
    (hid : keyEq m.extensionId i.id = true)
    (hgt : compareVersions i.version m.version = .gt) :
    ∀ a ∈ generateInstallPlan installed synced opts,
      keyEq a.key i.id = true → a.isInstallUpdate = false := by
  intro a ha hak
  unfold generateInstallPlan at ha
  rcases List.mem_append.mp ha with ha | ha
  rcases List.mem_append.mp ha with ha | ha
  · -- install/update pass: the action would have to come from `m` itself
    obtain ⟨m', hm', hsome⟩ := List.mem_filterMap.mp ha
    obtain ⟨hkey, _⟩ := installUpdateAction_shape hsome
    have hmm : m' = m := by
      refine synced_eq_of_keyEq hnds hm' hm ?_
      exact keyEq_trans (hkey ▸ hak) (keyEq_symm hid)
    subst hmm
    have hfi : findInstalled installed m'.extensionId = some i :=
      findInstalled_eq_some_of_mem hndi hi (keyEq_symm hid)
    unfold installUpdateAction at hsome
    rw [hfi] at hsome
    have hlt : compareVersions m'.version i.version = .lt :=
      compareVersions_gt_iff.mp hgt
    simp [hlt] at hsome
  · -- enable/disable pass produces no install/update actions
    obtain ⟨m', _, hsome⟩ := List.mem_filterMap.mp ha
    exact isEnableDisable_not_installUpdate (enableDisableAction_shape hsome).2
  · -- uninstall pass produces no install/update actions
    obtain ⟨i', _, hsome⟩ := List.mem_filterMap.mp ha
    rw [uninstallAction_shape hsome]
    rfl

/-- Witness for C1: a concrete newer installed extension `x@2.0.0` against a
mirrored `x@1.0.0` under the full-force policy; the plan carries no
install/update for `x`. -/

theorem c1_no_silent_downgrade_witness :
    (([⟨"x", "2.0.0", false⟩] : List Extension).map (fun x => lowerKey x.id)).Nodup ∧
    compareVersions "2.0.0" "1.0.0" = .gt ∧
    (∀ a ∈ generateInstallPlan [⟨"x", "2.0.0", false⟩]
        [⟨"x", "1.0.0", "/p", false⟩] ⟨false, false, false, true⟩,
      keyEq a.key "x" = true → a.isInstallUpdate = false) :=
  ⟨by decide, by decide,
    c1_no_silent_downgrade [⟨"x", "2.0.0", false⟩] [⟨"x", "1.0.0", "/p", false⟩]
      ⟨false, false, false, true⟩ ⟨"x", "2.0.0", false⟩ ⟨"x", "1.0.0", "/p", false⟩
      (by decide) (by decide) (by decide) (by decide) (by decide) (by decide)⟩

/-! ### Claim C2 -/

/-- Claim C2: the ordering invariant — in every generated plan, an
Install/Update action always has a strictly smaller index than an
Enable/Disable action for the same id (in fact, than any Enable/Disable
action); and for a new id absent from installed, mirrored with
`sourceDisabled = true`, under `installMissing` and `syncDisabled`, the plan
is exactly an Install followed by a Disable for that id. -/

theorem c2_ordering_invariant :
    (∀ (installed : List Extension) (synced : List SyncedVSIX) (opts : PlanOptions)
        (i j : Nat) (a b : Action),
      (generateInstallPlan installed synced opts)[i]? = some a →
      (generateInstallPlan installed synced opts)[j]? = some b →
      a.isInstallUpdate = true → b.isEnableDisable = true →
      keyEq a.key b.key = true → i < j) ∧
    (∀ (m : SyncedVSIX) (sr : Bool), m.sourceDisabled = true →
      generateInstallPlan [] [m] ⟨true, sr, true, false⟩ =
        [.install m.extensionId m.version m.path, .disable m.extensionId]) := by
  constructor
  · intro installed synced opts i j a b ha hb hau hbe _
    set P1 := synced.filterMap (installUpdateAction installed (effectivePolicy opts))
      with hP1
    set P2 := synced.filterMap (enableDisableAction installed (effectivePolicy opts))
      with hP2
    set P3 := installed.filterMap (uninstallAction synced (effectivePolicy opts))
      with hP3
    have hplan : generateInstallPlan installed synced opts = P1 ++ (P2 ++ P3) := by
      rw [generateInstallPlan, List.append_assoc]
    rw [hplan] at ha hb
    have hi : i < P1.length := by
      by_contra hcon
      push_neg at hcon
      rw [List.getElem?_append_right hcon] at ha
      have hmem : a ∈ P2 ++ P3 := by
        obtain ⟨hlt, hget⟩ := List.getElem?_eq_some.mp ha
        exact hget ▸ List.getElem_mem hlt
      rcases List.mem_append.mp hmem with hmem | hmem
      · obtain ⟨m', _, hsome⟩ := List.mem_filterMap.mp hmem
        rw [isEnableDisable_not_installUpdate (enableDisableAction_shape hsome).2] at hau
        cases hau
      · obtain ⟨i', _, hsome⟩ := List.mem_filterMap.mp hmem
        rw [uninstallAction_shape hsome] at hau
        cases hau
    have hj : P1.length ≤ j := by
      by_contra hcon
      push_neg at hcon
      rw [List.getElem?_append, if_pos hcon] at hb
      have hmem : b ∈ P1 := by
        obtain ⟨hlt, hget⟩ := List.getElem?_eq_some.mp hb
        exact hget ▸ List.getElem_mem hlt
      obtain ⟨m', _, hsome⟩ := List.mem_filterMap.mp hmem
      have hq := (installUpdateAction_shape hsome).2
      rw [isEnableDisable_not_installUpdate hbe] at hq
      cases hq
    omega
  · intro m sr hsd
    simp [generateInstallPlan, installUpdateAction, enableDisableAction,
      uninstallAction, findInstalled, effectivePolicy, hsd]

/-- Witness for C2: the concrete plan for a fresh disabled extension is an
Install at index 0 followed by a Disable at index 1, and the invariant
instance gives 0 < 1. -/

theorem c2_ordering_invariant_witness :
    (generateInstallPlan [] [⟨"x", "1.0.0", "/p", true⟩]
        ⟨true, false, true, false⟩)[0]? = some (.install "x" "1.0.0" "/p") ∧
    (generateInstallPlan [] [⟨"x", "1.0.0", "/p", true⟩]
        ⟨true, false, true, false⟩)[1]? = some (.disable "x") ∧
    (0 : Nat) < 1 :=
  ⟨by decide, by decide,
    c2_ordering_invariant.1 [] [⟨"x", "1.0.0", "/p", true⟩] ⟨true, false, true, false⟩
      0 1 (.install "x" "1.0.0" "/p") (.disable "x")
      (by decide) (by decide) (by decide) (by decide) (by decide)⟩

/-! ### Claim C7 -/

theorem filterMap_sublist_of_imp {α β : Type} (l : List α) (f g : α → Option β)
    (h : ∀ x a, f x = some a → g x = some a) :
    (l.filterMap f).Sublist (l.filterMap g) := by
  induction l with
  | nil => exact List.Sublist.refl _
  | cons x xs ih =>
    cases hf : f x with
    | none =>
      rw [List.filterMap_cons_none hf]
      cases hg : g x with
      | none => rw [List.filterMap_cons_none hg]; exact ih
      | some b => rw [List.filterMap_cons_some hg]; exact ih.cons b
    | some a =>
      rw [List.filterMap_cons_some hf, List.filterMap_cons_some (h x a hf)]
      exact ih.cons₂ a

theorem installUpdateAction_mono {installed : List Extension} {e e' : EffPolicy}
    (him : e.installMissing = true → e'.installMissing = true) :
    ∀ m a, installUpdateAction installed e m = some a →
      installUpdateAction installed e' m = some a := by
  intro m a h
  unfold installUpdateAction at h ⊢
  cases hfi : findInstalled installed m.extensionId <;> simp only [hfi] at h ⊢ <;>
    split_ifs at h ⊢ <;> simp_all

theorem enableDisableAction_mono {installed : List Extension} {e e' : EffPolicy}
    (him : e.installMissing = true → e'.installMissing = true)
    (hsd : e.syncDisabled = true → e'.syncDisabled = true) :
    ∀ m a, enableDisableAction installed e m = some a →
      enableDisableAction installed e' m = some a := by
  intro m a h
  unfold enableDisableAction at h ⊢
  split_ifs at h ⊢ <;> try simp_all
  cases hfi : findInstalled installed m.extensionId <;> simp only [hfi] at h ⊢ <;>
    (try split_ifs at h ⊢) <;> simp_all

theorem uninstallAction_mono {synced : List SyncedVSIX} {e e' : EffPolicy}
    (hsr : e.syncRemovals = true → e'.syncRemovals = true) :
    ∀ i a, uninstallAction synced e i = some a →
      uninstallAction synced e' i = some a := by
  intro i a h
  unfold uninstallAction at h ⊢
  split_ifs at h ⊢ <;> simp_all

theorem generateInstallPlan_sublist {installed : List Extension}
    {synced : List SyncedVSIX} {o o' : PlanOptions}
    (him : (effectivePolicy o).installMissing = true →
      (effectivePolicy o').installMissing = true)
    (hsr : (effectivePolicy o).syncRemovals = true →
      (effectivePolicy o').syncRemovals = true)
    (hsd : (effectivePolicy o).syncDisabled = true →
      (effectivePolicy o').syncDisabled = true) :
    (generateInstallPlan installed synced o).Sublist
      (generateInstallPlan installed synced o') := by
  unfold generateInstallPlan
  exact List.Sublist.append
    (List.Sublist.append
      (filterMap_sublist_of_imp _ _ _ (installUpdateAction_mono him))
      (filterMap_sublist_of_imp _ _ _ (enableDisableAction_mono him hsd)))
    (filterMap_sublist_of_imp _ _ _ (uninstallAction_mono hsr))

/-- Claim C7: policy monotonicity — turning any single one of
`installMissing`, `syncRemovals`, `syncDisabled` from false to true, holding
the other switches fixed, only ever adds actions: the original plan is a
sublist of the new one, so no action is removed. -/

theorem c7_policy_monotonicity (installed : List Extension) (synced : List SyncedVSIX)
    (opts : PlanOptions) :
    ((generateInstallPlan installed synced { opts with installMissing := false }).Sublist
      (generateInstallPlan installed synced { opts with installMissing := true })) ∧
    ((generateInstallPlan installed synced { opts with syncRemovals := false }).Sublist
      (generateInstallPlan installed synced { opts with syncRemovals := true })) ∧
    ((generateInstallPlan installed synced { opts with syncDisabled := false }).Sublist
      (generateInstallPlan installed synced { opts with syncDisabled := true })) := by
  refine ⟨?_, ?_, ?_⟩ <;>
    refine generateInstallPlan_sublist ?_ ?_ ?_ <;>
      simp [effectivePolicy] <;> intro h <;> simp [h]

/-! ### Claim C6, counterexample -/

/-- Claim C6, counterexample to idempotence: for installed `test.ext@1.0.0`
(enabled), mirrored `test.ext@2.0.0` with a disabled source, and policy
`syncDisabled = true`, the first plan is a lone Update (the enable/disable
row of the decision table requires equal versions, so no Disable is
produced); applying it leaves `test.ext@2.0.0` enabled, and regenerating
yields a Disable action, not the empty plan. -/

theorem c6_counterexample :
    generateInstallPlan [⟨"test.ext", "1.0.0", false⟩]
        [⟨"test.ext", "2.0.0", "/p", true⟩] ⟨false, false, true, false⟩ =
      [.update "test.ext" "2.0.0" "1.0.0" "/p"] ∧
    generateInstallPlan
        (applyPlan [⟨"test.ext", "1.0.0", false⟩]
          (generateInstallPlan [⟨"test.ext", "1.0.0", false⟩]
            [⟨"test.ext", "2.0.0", "/p", true⟩] ⟨false, false, true, false⟩))
        [⟨"test.ext", "2.0.0", "/p", true⟩] ⟨false, false, true, false⟩ =
      [.disable "test.ext"] ∧
    generateInstallPlan
        (applyPlan [⟨"test.ext", "1.0.0", false⟩]
          (generateInstallPlan [⟨"test.ext", "1.0.0", false⟩]
            [⟨"test.ext", "2.0.0", "/p", true⟩] ⟨false, false, true, false⟩))
        [⟨"test.ext", "2.0.0", "/p", true⟩] ⟨false, false, true, false⟩ ≠ [] := by
  refine ⟨by decide, by decide, by decide⟩

theorem keyEq_false_symm {a b : String} (h : keyEq a b = false) : keyEq b a = false := by
  cases hc : keyEq b a
  · rfl
  · rw [keyEq_symm hc] at h
    cases h

theorem findInstalled_cons (j : Extension) (rest : List Extension) (k : String) :
    findInstalled (j :: rest) k =
      if keyEq j.id k then some j else findInstalled rest k := by
  unfold findInstalled
  rw [List.find?_cons]
  cases keyEq j.id k <;> rfl

theorem findInstalled_some_key {S : List Extension} {k : String} {i : Extension}
    (h : findInstalled S k = some i) : keyEq i.id k = true := by
  unfold findInstalled at h
  exact @List.find?_some _ (fun x => keyEq x.id k) i S h

theorem findInstalled_mem {S : List Extension} {k : String} {i : Extension}
    (h : findInstalled S k = some i) : i ∈ S := by
  unfold findInstalled at h
  exact List.mem_of_find?_eq_some h

theorem findInstalled_append (S T : List Extension) (k : String) :
    findInstalled (S ++ T) k =
      match findInstalled S k with
      | some i => some i
      | none => findInstalled T k := by
  induction S with
  | nil => rfl
  | cons j rest ih =>
    rw [List.cons_append, findInstalled_cons, findInstalled_cons]
    cases hj : keyEq j.id k
    · simpa using ih
    · simp

theorem findInstalled_map {S : List Extension} {g : Extension → Extension}
    (hg : ∀ x, (g x).id = x.id) (k : String) :
    findInstalled (S.map g) k = (findInstalled S k).map g := by
  induction S with
  | nil => rfl
  | cons j rest ih =>
    rw [List.map_cons, findInstalled_cons, findInstalled_cons, hg j]
    cases hj : keyEq j.id k
    · simpa using ih
    · simp

theorem findInstalled_filter {S : List Extension} {q : Extension → Bool}
    {k : String} (hq : ∀ x, keyEq x.id k = true → q x = true) :
    findInstalled (S.filter q) k = findInstalled S k := by
  induction S with
  | nil => rfl
  | cons j rest ih =>
    rw [List.filter_cons]
    cases hqj : q j
    · have hj : keyEq j.id k = false := by
        cases hc : keyEq j.id k
        · rfl
        · rw [hq j hc] at hqj
          cases hqj
      rw [if_neg (by simp), findInstalled_cons, hj, if_neg (by simp)]
      exact ih
    · rw [if_pos rfl, findInstalled_cons, findInstalled_cons]
      cases hj : keyEq j.id k <;> simp [ih]

/-- Looking up a key through an action keyed to it is `applyLookup`. -/

theorem findInstalled_applyAction_key {S : List Extension} {a : Action}
    {k : String} (hk : a.key = k) :
    findInstalled (applyAction S a) k = applyLookup a (findInstalled S k) := by
  cases a with
  | install e v p =>
    simp only [Action.key] at hk
    subst hk
    rw [applyAction, findInstalled_append]
    cases hf : findInstalled S e
    · rw [findInstalled_cons]
      simp [keyEq_refl, applyLookup]
    · rfl
  | update e v cur p =>
    simp only [Action.key] at hk
    subst hk
    rw [applyAction, findInstalled_map (fun x => by split_ifs <;> rfl)]
    cases hf : findInstalled S e
    · rfl
    · rename_i i
      have : keyEq i.id e = true := findInstalled_some_key hf
      simp [applyLookup, this]
  | uninstall e =>
    simp only [Action.key] at hk
    subst hk
    rw [applyAction, applyLookup]
    unfold findInstalled
    rw [List.find?_eq_none]
    intro x hx hpx
    have := List.of_mem_filter hx
    rw [hpx] at this
    cases this
  | enable e =>
    simp only [Action.key] at hk
    subst hk
    rw [applyAction, findInstalled_map (fun x => by split_ifs <;> rfl)]
    cases hf : findInstalled S e
    · rfl
    · rename_i i
      have : keyEq i.id e = true := findInstalled_some_key hf
      simp [applyLookup, this]
  | disable e =>
    simp only [Action.key] at hk
    subst hk
    rw [applyAction, findInstalled_map (fun x => by split_ifs <;> rfl)]
    cases hf : findInstalled S e
    · rfl
    · rename_i i
      have : keyEq i.id e = true := findInstalled_some_key hf
      simp [applyLookup, this]

/-- An action for a different id leaves a key's lookup unchanged. -/

theorem findInstalled_applyAction_other {S : List Extension} {a : Action}
    {k : String} (hk : keyEq a.key k = false) :
    findInstalled (applyAction S a) k = findInstalled S k := by
  cases a with
  | install e v p =>
    simp only [Action.key] at hk
    rw [applyAction, findInstalled_append]
    cases hh : findInstalled S k
    · rw [findInstalled_cons]
      simp [hk, findInstalled]
    · rfl
  | update e v cur p =>
    simp only [Action.key] at hk
    rw [applyAction, findInstalled_map (fun x => by split_ifs <;> rfl)]
    cases hf : findInstalled S k
    · rfl
    · rename_i i
      have hik : keyEq i.id k = true := findInstalled_some_key hf
      have hie : keyEq i.id e = false := by
        cases hc : keyEq i.id e
        · rfl
        · rw [keyEq_trans (keyEq_symm hc) hik] at hk
          cases hk
      simp [hie]
  | uninstall e =>
    simp only [Action.key] at hk
    rw [applyAction]
    refine findInstalled_filter fun x hx => ?_
    cases hc : keyEq x.id e
    · simp
    · rw [keyEq_trans (keyEq_symm hc) hx] at hk
      cases hk
  | enable e =>
    simp only [Action.key] at hk
    rw [applyAction, findInstalled_map (fun x => by split_ifs <;> rfl)]
    cases hf : findInstalled S k
    · rfl
    · rename_i i
      have hik : keyEq i.id k = true := findInstalled_some_key hf
      have hie : keyEq i.id e = false := by
        cases hc : keyEq i.id e
        · rfl
        · rw [keyEq_trans (keyEq_symm hc) hik] at hk
          cases hk
      simp [hie]
  | disable e =>
    simp only [Action.key] at hk
    rw [applyAction, findInstalled_map (fun x => by split_ifs <;> rfl)]
    cases hf : findInstalled S k
    · rfl
    · rename_i i
      have hik : keyEq i.id k = true := findInstalled_some_key hf
      have hie : keyEq i.id e = false := by
        cases hc : keyEq i.id e
        · rfl
        · rw [keyEq_trans (keyEq_symm hc) hik] at hk
          cases hk
      simp [hie]

/-- A list of actions all keyed to other ids leaves a key's lookup
unchanged. -/

theorem findInstalled_applyPlan_other {acts : List Action} {S : List Extension}
    {k : String} (h : ∀ a ∈ acts, keyEq a.key k = false) :
    findInstalled (applyPlan S acts) k = findInstalled S k := by
  induction acts generalizing S with
  | nil => rfl
  | cons a rest ih =>
    have heq : applyPlan S (a :: rest) = applyPlan (applyAction S a) rest := rfl
    rw [heq, ih (fun b hb => h b (List.mem_cons_of_mem a hb)),
      findInstalled_applyAction_other (h a (List.mem_cons_self a rest))]

theorem applyPlan_append (S : List Extension) (A B : List Action) :
    applyPlan S (A ++ B) = applyPlan (applyPlan S A) B :=
  List.foldl_append _ _ _ _

/-- Applying one pass of actions, generated per mirrored artifact out of a
case-insensitively unique mirrored set, affects one artifact's key only
through that artifact's own action. -/

theorem findInstalled_applyPlan_filterMap {f : SyncedVSIX → Option Action}
    (hkey : ∀ m a, f m = some a → a.key = m.extensionId)
    {synced : List SyncedVSIX}
    (hnd : (synced.map (fun x => lowerKey x.extensionId)).Nodup)
    {m : SyncedVSIX} (hm : m ∈ synced) (S : List Extension) :
    findInstalled (applyPlan S (synced.filterMap f)) m.extensionId =
      applyLookupOpt (f m) (findInstalled S m.extensionId) := by
  obtain ⟨pre, post, rfl⟩ := List.append_of_mem hm
  rw [List.map_append, List.map_cons] at hnd
  obtain ⟨hndpre, hndpost, hdisj⟩ := List.nodup_append.mp hnd
  have hpostkeys : ∀ x ∈ post, keyEq x.extensionId m.extensionId = false := by
    intro x hx
    cases hc : keyEq x.extensionId m.extensionId
    · rfl
    · exfalso
      have hx' : lowerKey x.extensionId ∈ post.map (fun y => lowerKey y.extensionId) :=
        List.mem_map_of_mem _ hx
      rw [keyEq_iff.mp hc] at hx'
      exact (List.nodup_cons.mp hndpost).1 hx'
  have hprekeys : ∀ x ∈ pre, keyEq x.extensionId m.extensionId = false := by
    intro x hx
    cases hc : keyEq x.extensionId m.extensionId
    · rfl
    · exfalso
      have hx' : lowerKey x.extensionId ∈ pre.map (fun y => lowerKey y.extensionId) :=
        List.mem_map_of_mem _ hx
      exact hdisj hx' (keyEq_iff.mp hc ▸ List.mem_cons_self _ _)
  have hpreact : ∀ a ∈ pre.filterMap f, keyEq a.key m.extensionId = false := by
    intro a ha
    obtain ⟨x, hx, hfx⟩ := List.mem_filterMap.mp ha
    rw [hkey x a hfx]
    exact hprekeys x hx
  have hpostact : ∀ a ∈ post.filterMap f, keyEq a.key m.extensionId = false := by
    intro a ha
    obtain ⟨x, hx, hfx⟩ := List.mem_filterMap.mp ha
    rw [hkey x a hfx]
    exact hpostkeys x hx
  rw [List.filterMap_append]
  cases hfm : f m with
  | none =>
    rw [List.filterMap_cons_none hfm, applyPlan_append,
      findInstalled_applyPlan_other hpostact, findInstalled_applyPlan_other hpreact]
    rfl
  | some a =>
    rw [List.filterMap_cons_some hfm]
    have hsplit : applyPlan S (pre.filterMap f ++ a :: post.filterMap f) =
        applyPlan (applyAction (applyPlan S (pre.filterMap f)) a) (post.filterMap f) := by
      rw [applyPlan_append]
      rfl
    rw [hsplit, findInstalled_applyPlan_other hpostact,
      findInstalled_applyAction_key (hkey m a hfm),
      findInstalled_applyPlan_other hpreact]
    rfl

/-- Characterization of one mirrored id's final installed state after the
whole plan has been applied: only the id's own install/update action and its
own enable/disable action touch it. -/

theorem findInstalled_after_plan (installed : List Extension)
    (synced : List SyncedVSIX) (opts : PlanOptions)
    (hnds : (synced.map (fun x => lowerKey x.extensionId)).Nodup)
    {m : SyncedVSIX} (hm : m ∈ synced) :
    findInstalled (applyPlan installed (generateInstallPlan installed synced opts))
        m.extensionId =
      applyLookupOpt (enableDisableAction installed (effectivePolicy opts) m)
        (applyLookupOpt (installUpdateAction installed (effectivePolicy opts) m)
          (findInstalled installed m.extensionId)) := by
  have hP3keys : ∀ u ∈ installed.filterMap
      (uninstallAction synced (effectivePolicy opts)),
      keyEq u.key m.extensionId = false := by
    intro u hu
    obtain ⟨i', hi', hsome⟩ := List.mem_filterMap.mp hu
    have hu' := uninstallAction_shape hsome
    subst hu'
    unfold uninstallAction at hsome
    split_ifs at hsome with hcond
    have hnone : findSynced synced i'.id = none := by
      cases hfs : findSynced synced i'.id
      · rfl
      · rw [hfs] at hcond
        simp at hcond
    unfold findSynced at hnone
    have := List.find?_eq_none.mp hnone m hm
    simp only [Action.key]
    cases hc : keyEq i'.id m.extensionId
    · rfl
    · exact absurd (keyEq_symm hc) (by simpa using this)
  rw [generateInstallPlan, applyPlan_append, applyPlan_append,
    findInstalled_applyPlan_other hP3keys,
    findInstalled_applyPlan_filterMap
      (fun m' a h => (enableDisableAction_shape h).1) hnds hm,
    findInstalled_applyPlan_filterMap
      (fun m' a h => (installUpdateAction_shape h).1) hnds hm]

/-- Every extension present after applying a plan either descends from an
original entry with the same id or was put there by an Install action of the
plan. -/

theorem mem_applyPlan_origin {S : List Extension} {acts : List Action}
    {x : Extension} (hx : x ∈ applyPlan S acts) :
    (∃ y ∈ S, y.id = x.id) ∨ (∃ a ∈ acts, a.isInstall = true ∧ a.key = x.id) := by
  induction acts generalizing S with
  | nil => exact Or.inl ⟨x, hx, rfl⟩
  | cons a rest ih =>
    have hx' : x ∈ applyPlan (applyAction S a) rest := hx
    rcases ih hx' with ⟨y, hy, hyx⟩ | ⟨b, hb, hbi, hbk⟩
    · cases a with
      | install e v p =>
        rcases List.mem_append.mp hy with hy | hy
        · exact Or.inl ⟨y, hy, hyx⟩
        · have : y = ⟨e, v, false⟩ := by simpa using hy
          subst this
          exact Or.inr ⟨.install e v p, List.mem_cons_self _ _, rfl, hyx⟩
      | update e v cur p =>
        obtain ⟨z, hz, hzy⟩ := List.mem_map.mp hy
        refine Or.inl ⟨z, hz, ?_⟩
        rw [← hyx, ← hzy]
        split_ifs <;> rfl
      | uninstall e =>
        exact Or.inl ⟨y, List.mem_of_mem_filter hy, hyx⟩
      | enable e =>
        obtain ⟨z, hz, hzy⟩ := List.mem_map.mp hy
        refine Or.inl ⟨z, hz, ?_⟩
        rw [← hyx, ← hzy]
        split_ifs <;> rfl
      | disable e =>
        obtain ⟨z, hz, hzy⟩ := List.mem_map.mp hy
        refine Or.inl ⟨z, hz, ?_⟩
        rw [← hyx, ← hzy]
        split_ifs <;> rfl
    · exact Or.inr ⟨b, List.mem_cons_of_mem a hb, hbi, hbk⟩

/-- After an uninstall action no entry matches the uninstalled key. -/

theorem applyAction_uninstall_absence (T : List Extension) (e : String) :
    ∀ z ∈ applyAction T (.uninstall e), keyEq z.id e = false := by
  intro z hz
  have hq := List.of_mem_filter hz
  cases hc : keyEq z.id e
  · rfl
  · rw [hc] at hq
    cases hq

/-- A plan without Install actions cannot re-create an absent key. -/

theorem applyPlan_no_install_absence {acts : List Action} {T : List Extension}
    {k : String} (hni : ∀ a ∈ acts, a.isInstall = false)
    (habs : ∀ z ∈ T, keyEq z.id k = false) :
    ∀ z ∈ applyPlan T acts, keyEq z.id k = false := by
  induction acts generalizing T with
  | nil => exact habs
  | cons a rest ih =>
    refine ih (fun b hb => hni b (List.mem_cons_of_mem a hb)) ?_
    intro z hz
    cases a with
    | install e v p =>
      have := hni _ (List.mem_cons_self _ _)
      simp [Action.isInstall] at this
    | update e v cur p =>
      obtain ⟨y, hy, hyz⟩ := List.mem_map.mp hz
      have : z.id = y.id := by
        rw [← hyz]
        split_ifs <;> rfl
      rw [this]
      exact habs y hy
    | uninstall e =>
      exact habs z (List.mem_of_mem_filter hz)
    | enable e =>
      obtain ⟨y, hy, hyz⟩ := List.mem_map.mp hz
      have : z.id = y.id := by
        rw [← hyz]
        split_ifs <;> rfl
      rw [this]
      exact habs y hy
    | disable e =>
      obtain ⟨y, hy, hyz⟩ := List.mem_map.mp hz
      have : z.id = y.id := by
        rw [← hyz]
        split_ifs <;> rfl
      rw [this]
      exact habs y hy

theorem isEnableDisable_not_install {a : Action} (h : a.isEnableDisable = true) :
    a.isInstall = false := by
  cases a <;> simp_all [Action.isEnableDisable, Action.isInstall]

/-- After applying the plan, the uninstall pass has nothing left to do: every
surviving or freshly installed entry is mirrored whenever `syncRemovals` is
in effect. -/

theorem uninstall_pass_none (installed : List Extension) (synced : List SyncedVSIX)
    (opts : PlanOptions) {x : Extension}
    (hx : x ∈ applyPlan installed (generateInstallPlan installed synced opts)) :
    uninstallAction synced (effectivePolicy opts) x = none := by
  unfold uninstallAction
  cases hsr : (effectivePolicy opts).syncRemovals
  · simp
  · cases hfs : findSynced synced x.id
    case some => simp [hfs]
    case none =>
      exfalso
      have habs : ∀ y ∈ synced, keyEq y.extensionId x.id = false := by
        intro y hy
        have hfs' := hfs
        unfold findSynced at hfs'
        have := List.find?_eq_none.mp hfs' y hy
        simpa using this
      rcases mem_applyPlan_origin hx with ⟨y, hy, hyx⟩ | ⟨a, ha, hai, hak⟩
      · have hun : uninstallAction synced (effectivePolicy opts) y =
            some (.uninstall x.id) := by
          unfold uninstallAction
          rw [hyx, hsr, hfs]
          rfl
        have hmem : (Action.uninstall x.id) ∈
            installed.filterMap (uninstallAction synced (effectivePolicy opts)) :=
          List.mem_filterMap.mpr ⟨y, hy, hun⟩
        obtain ⟨A, B, hP3⟩ := List.append_of_mem hmem
        have hplan : generateInstallPlan installed synced opts =
            (synced.filterMap (installUpdateAction installed (effectivePolicy opts)) ++
              synced.filterMap (enableDisableAction installed (effectivePolicy opts))) ++
              (A ++ Action.uninstall x.id :: B) := by
          rw [generateInstallPlan, hP3]
        rw [hplan, applyPlan_append, applyPlan_append] at hx
        have hx2 : x ∈ applyPlan
            (applyAction (applyPlan (applyPlan installed
              (synced.filterMap (installUpdateAction installed (effectivePolicy opts)) ++
                synced.filterMap (enableDisableAction installed (effectivePolicy opts)))) A)
              (.uninstall x.id)) B := hx
        have hB : ∀ b ∈ B, b.isInstall = false := by
          intro b hb
          have hbP3 : b ∈ installed.filterMap
              (uninstallAction synced (effectivePolicy opts)) := by
            rw [hP3]
            exact List.mem_append.mpr (Or.inr (List.mem_cons_of_mem _ hb))
          obtain ⟨i', _, hsome⟩ := List.mem_filterMap.mp hbP3
          rw [uninstallAction_shape hsome]
          rfl
        have hfin := applyPlan_no_install_absence hB
          (applyAction_uninstall_absence _ _) x hx2
        rw [keyEq_refl] at hfin
        cases hfin
      · rw [generateInstallPlan] at ha
        rcases List.mem_append.mp ha with ha | ha
        rcases List.mem_append.mp ha with ha | ha
        · obtain ⟨m', hm', hsome⟩ := List.mem_filterMap.mp ha
          have hk := (installUpdateAction_shape hsome).1
          rw [hk] at hak
          have := habs m' hm'
          rw [hak, keyEq_refl] at this
          cases this
        · obtain ⟨m', _, hsome⟩ := List.mem_filterMap.mp ha
          rw [isEnableDisable_not_install (enableDisableAction_shape hsome).2] at hai
          cases hai
        · obtain ⟨i', _, hsome⟩ := List.mem_filterMap.mp ha
          rw [uninstallAction_shape hsome] at hai
          cases hai

theorem applyLookup_enableDisable_version {a : Action} (h : a.isEnableDisable = true)
    (i : Extension) : ∃ b : Bool, applyLookup a (some i) = some ⟨i.id, i.version, b⟩ := by
  cases a with
  | enable e => exact ⟨false, rfl⟩
  | disable e => exact ⟨true, rfl⟩
  | install e v p => simp [Action.isEnableDisable] at h
  | update e v c p => simp [Action.isEnableDisable] at h
  | uninstall e => simp [Action.isEnableDisable] at h

/-- Claim C6 (amended): idempotence of plan generation holds for
case-insensitively unique mirrored sets, provided no id combines a version
upgrade with an enabled-state mismatch while `syncDisabled` is active — the
decision table only enables/disables at equal versions, so after an Update
the regenerated plan would emit the deferred Enable/Disable (see the
counterexample).  Under that proviso, applying the generated plan and
regenerating yields the empty plan. -/

theorem c6_idempotence (installed : List Extension) (synced : List SyncedVSIX)
    (opts : PlanOptions)
    (hnds : (synced.map (fun x => lowerKey x.extensionId)).Nodup)
    (hcompat : ∀ m ∈ synced, ∀ i ∈ installed,
      keyEq i.id m.extensionId = true →
      (effectivePolicy opts).syncDisabled = true →
      compareVersions m.version i.version = .gt →
      i.disabled = m.sourceDisabled) :
    generateInstallPlan
      (applyPlan installed (generateInstallPlan installed synced opts))
      synced opts = [] := by
  have h1 : ∀ m ∈ synced, installUpdateAction
      (applyPlan installed (generateInstallPlan installed synced opts))
      (effectivePolicy opts) m = none := by
    intro m hm
    have hfin := findInstalled_after_plan installed synced opts hnds hm
    unfold installUpdateAction
    rw [hfin]
    cases hfi : findInstalled installed m.extensionId with
    | none =>
      cases him : (effectivePolicy opts).installMissing
      · have hf1 : installUpdateAction installed (effectivePolicy opts) m = none := by
          unfold installUpdateAction
          rw [hfi, him]
          rfl
        have hf2 : enableDisableAction installed (effectivePolicy opts) m = none := by
          unfold enableDisableAction
          cases hsd : (effectivePolicy opts).syncDisabled
          · rfl
          · rw [hfi, him]
            rfl
        rw [hf1, hf2]
        simp [applyLookupOpt, him]
      · have hf1 : installUpdateAction installed (effectivePolicy opts) m =
            some (.install m.extensionId m.version m.path) := by
          unfold installUpdateAction
          rw [hfi, him]
          rfl
        rw [hf1]
        cases hf2 : enableDisableAction installed (effectivePolicy opts) m with
        | none => simp [applyLookupOpt, applyLookup, compareVersions_refl]
        | some a =>
          obtain ⟨b, hb⟩ := applyLookup_enableDisable_version
            (enableDisableAction_shape hf2).2 ⟨m.extensionId, m.version, false⟩
          simp only [applyLookupOpt, applyLookup] at hb ⊢
          rw [hb]
          simp [compareVersions_refl]
    | some i =>
      cases hcmp : compareVersions m.version i.version with
      | lt =>
        have hf1 : installUpdateAction installed (effectivePolicy opts) m = none := by
          unfold installUpdateAction
          rw [hfi]
          simp [hcmp]
        have hf2 : enableDisableAction installed (effectivePolicy opts) m = none := by
          unfold enableDisableAction
          cases hsd : (effectivePolicy opts).syncDisabled
          · rfl
          · rw [hfi]
            simp [hcmp]
        rw [hf1, hf2]
        simp [applyLookupOpt, hcmp]
      | eq =>
        have hf1 : installUpdateAction installed (effectivePolicy opts) m = none := by
          unfold installUpdateAction
          rw [hfi]
          simp [hcmp]
        rw [hf1]
        cases hf2 : enableDisableAction installed (effectivePolicy opts) m with
        | none => simp [applyLookupOpt, hcmp]
        | some a =>
          obtain ⟨b, hb⟩ := applyLookup_enableDisable_version
            (enableDisableAction_shape hf2).2 i
          simp only [applyLookupOpt] at hb ⊢
          rw [hb]
          simp [hcmp]
      | gt =>
        have hf1 : installUpdateAction installed (effectivePolicy opts) m =
            some (.update m.extensionId m.version i.version m.path) := by
          unfold installUpdateAction
          rw [hfi]
          simp [hcmp]
        have hf2 : enableDisableAction installed (effectivePolicy opts) m = none := by
          unfold enableDisableAction
          cases hsd : (effectivePolicy opts).syncDisabled
          · rfl
          · rw [hfi]
            simp [hcmp]
        rw [hf1, hf2]
        simp [applyLookupOpt, applyLookup, compareVersions_refl]
  have h2 : ∀ m ∈ synced, enableDisableAction
      (applyPlan installed (generateInstallPlan installed synced opts))
      (effectivePolicy opts) m = none := by
    intro m hm
    have hfin := findInstalled_after_plan installed synced opts hnds hm
    unfold enableDisableAction
    cases hsd : (effectivePolicy opts).syncDisabled
    · rfl
    · rw [hfin]
      cases hfi : findInstalled installed m.extensionId with
      | none =>
        cases him : (effectivePolicy opts).installMissing
        · have hf1 : installUpdateAction installed (effectivePolicy opts) m = none := by
            unfold installUpdateAction
            rw [hfi, him]
            rfl
          have hf2 : enableDisableAction installed (effectivePolicy opts) m = none := by
            unfold enableDisableAction
            rw [hsd, hfi, him]
            rfl
          rw [hf1, hf2]
          simp [applyLookupOpt, him]
        · have hf1 : installUpdateAction installed (effectivePolicy opts) m =
              some (.install m.extensionId m.version m.path) := by
            unfold installUpdateAction
            rw [hfi, him]
            rfl
          rw [hf1]
          cases hsrc : m.sourceDisabled
          · have hf2 : enableDisableAction installed (effectivePolicy opts) m = none := by
              unfold enableDisableAction
              rw [hsd, hfi, him, hsrc]
              rfl
            rw [hf2]
            simp [applyLookupOpt, applyLookup, compareVersions_refl, hsrc]
          · have hf2 : enableDisableAction installed (effectivePolicy opts) m =
                some (.disable m.extensionId) := by
              unfold enableDisableAction
              rw [hsd, hfi, him, hsrc]
              rfl
            rw [hf2]
            simp [applyLookupOpt, applyLookup, compareVersions_refl, hsrc]
      | some i =>
        cases hcmp : compareVersions m.version i.version with
        | lt =>
          have hf1 : installUpdateAction installed (effectivePolicy opts) m = none := by
            unfold installUpdateAction
            rw [hfi]
            simp [hcmp]
          have hf2 : enableDisableAction installed (effectivePolicy opts) m = none := by
            unfold enableDisableAction
            rw [hsd, hfi]
            simp [hcmp]
          rw [hf1, hf2]
          simp [applyLookupOpt, hcmp]
        | eq =>
          have hf1 : installUpdateAction installed (effectivePolicy opts) m = none := by
            unfold installUpdateAction
            rw [hfi]
            simp [hcmp]
          rw [hf1]
          cases hmis : i.disabled != m.sourceDisabled
          · have hf2 : enableDisableAction installed (effectivePolicy opts) m = none := by
              unfold enableDisableAction
              rw [hsd, hfi]
              simp [hcmp, hmis]
            rw [hf2]
            simp only [applyLookupOpt]
            simp only [bne_eq_false_iff_eq] at hmis
            simp [hcmp, hmis]
          · cases hsrc : m.sourceDisabled
            · have hf2 : enableDisableAction installed (effectivePolicy opts) m =
                  some (.enable m.extensionId) := by
                unfold enableDisableAction
                rw [hsd, hfi, hsrc]
                simp [hcmp, hsrc ▸ hmis]
              rw [hf2]
              simp [applyLookupOpt, applyLookup, hcmp, hsrc]
            · have hf2 : enableDisableAction installed (effectivePolicy opts) m =
                  some (.disable m.extensionId) := by
                unfold enableDisableAction
                rw [hsd, hfi, hsrc]
                simp [hcmp, hsrc ▸ hmis]
              rw [hf2]
              simp [applyLookupOpt, applyLookup, hcmp, hsrc]
        | gt =>
          have hf1 : installUpdateAction installed (effectivePolicy opts) m =
              some (.update m.extensionId m.version i.version m.path) := by
            unfold installUpdateAction
            rw [hfi]
            simp [hcmp]
          have hf2 : enableDisableAction installed (effectivePolicy opts) m = none := by
            unfold enableDisableAction
            rw [hsd, hfi]
            simp [hcmp]
          have hagree : i.disabled = m.sourceDisabled :=
            hcompat m hm i (findInstalled_mem hfi) (findInstalled_some_key hfi)
              hsd hcmp
          rw [hf1, hf2]
          simp [applyLookupOpt, applyLookup, compareVersions_refl, hagree]
  have h3 : ∀ i ∈ applyPlan installed (generateInstallPlan installed synced opts),
      uninstallAction synced (effectivePolicy opts) i = none :=
    fun i hi => uninstall_pass_none installed synced opts hi
  rw [generateInstallPlan, List.filterMap_eq_nil_iff.mpr h1,
    List.filterMap_eq_nil_iff.mpr h2, List.filterMap_eq_nil_iff.mpr h3]
  rfl

/-- Witness for C6: a mixed concrete scenario — an upgrade with agreeing
enabled states, a disabled-source fresh install, and an orphan — applied and
regenerated under the full policy yields the empty plan. -/

theorem c6_idempotence_witness :
    ((([⟨"a.ext", "1.0.0", "/a", false⟩, ⟨"b.ext", "1.0.0", "/b", true⟩]
        : List SyncedVSIX).map (fun x => lowerKey x.extensionId)).Nodup ∧
      (∀ m ∈ ([⟨"a.ext", "1.0.0", "/a", false⟩, ⟨"b.ext", "1.0.0", "/b", true⟩]
          : List SyncedVSIX),
        ∀ i ∈ ([⟨"a.ext", "0.5.0", false⟩, ⟨"orphan.ext", "1.0.0", false⟩]
          : List Extension),
        keyEq i.id m.extensionId = true →
        (effectivePolicy ⟨false, false, false, true⟩).syncDisabled = true →
        compareVersions m.version i.version = .gt →
        i.disabled = m.sourceDisabled)) ∧
    generateInstallPlan
      (applyPlan [⟨"a.ext", "0.5.0", false⟩, ⟨"orphan.ext", "1.0.0", false⟩]
        (generateInstallPlan [⟨"a.ext", "0.5.0", false⟩, ⟨"orphan.ext", "1.0.0", false⟩]
          [⟨"a.ext", "1.0.0", "/a", false⟩, ⟨"b.ext", "1.0.0", "/b", true⟩]
          ⟨false, false, false, true⟩))
      [⟨"a.ext", "1.0.0", "/a", false⟩, ⟨"b.ext", "1.0.0", "/b", true⟩]
      ⟨false, false, false, true⟩ = [] :=
  ⟨⟨by decide, by decide⟩,
    c6_idempotence [⟨"a.ext", "0.5.0", false⟩, ⟨"orphan.ext", "1.0.0", false⟩]
      [⟨"a.ext", "1.0.0", "/a", false⟩, ⟨"b.ext", "1.0.0", "/b", true⟩]
      ⟨false, false, false, true⟩ (by decide) (by decide)⟩

theorem insertByVersionDesc_perm (r : PackageRelease) (l : List PackageRelease) :
    (insertByVersionDesc r l).Perm (r :: l) := by
  induction l with
  | nil => exact List.Perm.refl _
  | cons x xs ih =>
    rw [insertByVersionDesc]
    split_ifs
    · exact List.Perm.refl _
    · exact (ih.cons x).trans (List.Perm.swap r x xs)

theorem sortByVersionDesc_perm (l : List PackageRelease) :
    (sortByVersionDesc l).Perm l := by
  induction l with
  | nil => exact List.Perm.refl _
  | cons r rs ih =>
    exact (insertByVersionDesc_perm r (sortByVersionDesc rs)).trans (ih.cons r)

theorem find?_eq_some_split {α : Type} {p : α → Bool} {l : List α} {r : α}
    (h : l.find? p = some r) :
    ∃ pre post, l = pre ++ r :: post ∧ ∀ x ∈ pre, p x = false := by
  induction l with
  | nil => cases h
  | cons a as ih =>
    rw [List.find?_cons] at h
    cases hpa : p a
    · rw [hpa] at h
      obtain ⟨pre, post, heq, hall⟩ := ih h
      refine ⟨a :: pre, post, by rw [heq]; rfl, ?_⟩
      intro x hx
      rcases List.mem_cons.mp hx with rfl | hx'
      · exact hpa
      · exact hall x hx'
    · rw [hpa] at h
      cases h
      exact ⟨[], as, rfl, by intro x hx; cases hx⟩

/-! ### Claim C5 -/

/-- Claim C5: `selectRelease` sorts descending by VersionOrdering and returns
the first release (newest-first) whose range accepts the runtime version: a
found release is accepted and is preceded in the sorted order only by
rejected releases; when every release is rejected nothing is found; the
function is deterministic; and on the spec's concrete scenario it returns
the 2.0.0 release at runtime 1.60, the 1.0.0 release at runtime 1.30, and
NotFound at runtime 1.20. -/

theorem c5_select_release :
    (∀ (accepts : String → String → Bool) (releases : List PackageRelease)
        (rv : String) (r : PackageRelease),
      selectRelease accepts releases rv = .found r →
        accepts r.compatibilityRange rv = true ∧
        ∃ pre post, sortByVersionDesc releases = pre ++ r :: post ∧
          ∀ x ∈ pre, accepts x.compatibilityRange rv = false) ∧
    (∀ (accepts : String → String → Bool) (releases : List PackageRelease)
        (rv : String),
      (∀ x ∈ releases, accepts x.compatibilityRange rv = false) →
      ∀ r, selectRelease accepts releases rv ≠ .found r) ∧
    (∀ (accepts : String → String → Bool) (releases : List PackageRelease)
        (rv : String),
      selectRelease accepts releases rv = selectRelease accepts releases rv) ∧
    selectRelease scenarioAccepts
        [⟨"pkg", "1.0.0", "25-50", "loc1"⟩, ⟨"pkg", "2.0.0", "55-100", "loc2"⟩]
        "1.60" = .found ⟨"pkg", "2.0.0", "55-100", "loc2"⟩ ∧
    selectRelease scenarioAccepts
        [⟨"pkg", "1.0.0", "25-50", "loc1"⟩, ⟨"pkg", "2.0.0", "55-100", "loc2"⟩]
        "1.30" = .found ⟨"pkg", "1.0.0", "25-50", "loc1"⟩ ∧
    selectRelease scenarioAccepts
        [⟨"pkg", "1.0.0", "25-50", "loc1"⟩, ⟨"pkg", "2.0.0", "55-100", "loc2"⟩]
        "1.20" = .noCompatible := by
  refine ⟨?_, ?_, fun _ _ _ => rfl, by decide, by decide, by decide⟩
  · intro accepts releases rv r h
    unfold selectRelease at h
    split_ifs at h
    cases hf : (sortByVersionDesc releases).find?
        (fun x => accepts x.compatibilityRange rv) with
    | none => rw [hf] at h; cases h
    | some r' =>
      rw [hf] at h
      cases h
      exact ⟨@List.find?_some PackageRelease
        (fun x => accepts x.compatibilityRange rv) _ _ hf, find?_eq_some_split hf⟩
  · intro accepts releases rv hall r h
    unfold selectRelease at h
    split_ifs at h
    cases hf : (sortByVersionDesc releases).find?
        (fun x => accepts x.compatibilityRange rv) with
    | none => rw [hf] at h; cases h
    | some r' =>
      have hmem : r' ∈ releases :=
        (sortByVersionDesc_perm releases).mem_iff.mp (List.mem_of_find?_eq_some hf)
      have hacc := @List.find?_some PackageRelease
        (fun x => accepts x.compatibilityRange rv) _ _ hf
      simp only [] at hacc
      rw [hall r' hmem] at hacc
      cases hacc

/-- Witness for C5: the found-release characterization applied at the
concrete 1.60 scenario, and the nothing-accepted direction applied at the
1.20 scenario. -/

theorem c5_select_release_witness :
    (selectRelease scenarioAccepts
        [⟨"pkg", "1.0.0", "25-50", "loc1"⟩, ⟨"pkg", "2.0.0", "55-100", "loc2"⟩]
        "1.60" = .found ⟨"pkg", "2.0.0", "55-100", "loc2"⟩ ∧
      scenarioAccepts "55-100" "1.60" = true) ∧
    (∀ x ∈ ([⟨"pkg", "1.0.0", "25-50", "loc1"⟩, ⟨"pkg", "2.0.0", "55-100", "loc2"⟩]
        : List PackageRelease), scenarioAccepts x.compatibilityRange "1.20" = false) ∧
    (∀ r, selectRelease scenarioAccepts
        [⟨"pkg", "1.0.0", "25-50", "loc1"⟩, ⟨"pkg", "2.0.0", "55-100", "loc2"⟩]
        "1.20" ≠ .found r) :=
  ⟨⟨by decide,
    (c5_select_release.1 scenarioAccepts
      [⟨"pkg", "1.0.0", "25-50", "loc1"⟩, ⟨"pkg", "2.0.0", "55-100", "loc2"⟩]
      "1.60" ⟨"pkg", "2.0.0", "55-100", "loc2"⟩ (by decide)).1⟩,
    by decide,
    c5_select_release.2.1 scenarioAccepts
      [⟨"pkg", "1.0.0", "25-50", "loc1"⟩, ⟨"pkg", "2.0.0", "55-100", "loc2"⟩]
      "1.20" (by decide)⟩

theorem PreservesCli_rfl (argv : List String) (pending : Bool) (v : CliValues) :
    PreservesCli argv pending v v :=
  ⟨fun _ _ => rfl, fun _ => rfl, fun _ => rfl, fun _ => rfl, fun _ => rfl,
    fun _ => rfl, fun _ => rfl⟩

theorem isOptionValueTok_ne {t : String} (h : isOptionValueTok t = true) :
    (t != "--") = true := by
  cases hc : t == "--"
  · simp [bne, hc]
  · exfalso
    have ht : t = "--" := by simpa using hc
    rw [ht] at h
    exact absurd h (by decide)

theorem mentionsOpt_cons_false {f : String → Bool} {t : String} {rest : List String}
    (ht : (t != "--") = true) (h : mentionsOpt f (t :: rest) = false) :
    f t = false ∧ mentionsOpt f rest = false := by
  unfold mentionsOpt at h ⊢
  rw [List.takeWhile_cons, if_pos ht, List.any_cons] at h
  exact Bool.or_eq_false_iff.mp h

theorem PreservesCli_step {t : String} {rest : List String}
    {pending pending₂ : Bool} {v v₂ v' : CliValues}
    (ht : (t != "--") = true)
    (hrec : PreservesCli rest pending₂ v₂ v')
    (hto : tokenSetsLong "to" t = false → pending = false →
      pending₂ = false ∧ v₂.toTargets = v.toTargets)
    (hforce : tokenSetsLong "force" t = false → v₂.force = v.force)
    (hdry : tokenSetsLong "dry-run" t = false → v₂.dryRun = v.dryRun)
    (hmiss : tokenSetsLong "install-missing" t = false →
      v₂.installMissing = v.installMissing)
    (hrem : tokenSetsLong "sync-removals" t = false →
      v₂.syncRemovals = v.syncRemovals)
    (hdis : tokenSetsLong "sync-disabled" t = false →
      v₂.syncDisabled = v.syncDisabled)
    (hhelp : tokenSetsHelp t = false → v₂.help = v.help) :
    PreservesCli (t :: rest) pending v v' := by
  obtain ⟨p1, p2, p3, p4, p5, p6, p7⟩ := hrec
  refine ⟨?_, ?_, ?_, ?_, ?_, ?_, ?_⟩
  · intro hm hp
    obtain ⟨hft, hmr⟩ := mentionsOpt_cons_false ht hm
    obtain ⟨hp₂, hv₂⟩ := hto hft hp
    rw [p1 hmr hp₂, hv₂]
  · intro hm
    obtain ⟨hft, hmr⟩ := mentionsOpt_cons_false ht hm
    rw [p2 hmr, hforce hft]
  · intro hm
    obtain ⟨hft, hmr⟩ := mentionsOpt_cons_false ht hm
    rw [p3 hmr, hdry hft]
  · intro hm
    obtain ⟨hft, hmr⟩ := mentionsOpt_cons_false ht hm
    rw [p4 hmr, hmiss hft]
  · intro hm
    obtain ⟨hft, hmr⟩ := mentionsOpt_cons_false ht hm
    rw [p5 hmr, hrem hft]
  · intro hm
    obtain ⟨hft, hmr⟩ := mentionsOpt_cons_false ht hm
    rw [p6 hmr, hdis hft]
  · intro hm
    obtain ⟨hft, hmr⟩ := mentionsOpt_cons_false ht hm
    rw [p7 hmr, hhelp hft]

theorem isShortTok_shape {t : String} (h : isShortTok t = true) :
    ∃ c2 l2, t.data.drop 1 = c2 :: l2 := by
  unfold isShortTok at h
  cases hd : t.data with
  | nil => rw [hd] at h; cases h
  | cons c1 l1 =>
    cases l1 with
    | nil => rw [hd] at h; cases h
    | cons c2 l2 => exact ⟨c2, l2, rfl⟩

/-- Options not mentioned among the option tokens of `argv` come out of a
successful parse with their incoming values. -/

theorem parseTokens_preserves : ∀ (argv : List String) (pending : Bool)
    (v : CliValues) (pos : List String) (v' : CliValues) (pos' : List String),
    parseTokens argv pending v pos = .ok (v', pos') →
    PreservesCli argv pending v v' := by
  intro argv
  induction argv with
  | nil =>
    intro pending v pos v' pos' h
    cases pending <;> simp only [parseTokens] at h
    all_goals cases h
    exact PreservesCli_rfl _ _ _
  | cons t rest ih =>
    intro pending v pos v' pos' h
    cases pending <;> simp only [parseTokens] at h
    · -- no pending value: dispatch on the token
      by_cases hdd : t = "--"
      · rw [if_pos hdd] at h
        cases h
        exact PreservesCli_rfl _ _ _
      · rw [if_neg hdd] at h
        have ht : (t != "--") = true := bne_iff_ne.mpr hdd
        by_cases hlong : isLongTok t = true
        · rw [if_pos hlong] at h
          cases hsp : splitEq (t.data.drop 2) with
          | some nv =>
            obtain ⟨name, value⟩ := nv
            simp only [hsp] at h
            by_cases hname : String.mk name = "to"
            · rw [if_pos hname] at h
              have hnd : name = "to".data := congrArg String.data hname
              have hft : tokenSetsLong "to" t = true := by
                unfold tokenSetsLong
                rw [hlong, hsp]
                simp [hnd]
              refine PreservesCli_step ht (ih _ _ _ _ _ h) ?_ ?_ ?_ ?_ ?_ ?_ ?_
              · intro hf
                rw [hft] at hf
                cases hf
              all_goals exact fun _ => rfl
            · rw [if_neg hname] at h
              by_cases hbool : boolOptionNames.contains (String.mk name) = true
              · rw [if_pos hbool] at h
                cases h
              · rw [if_neg hbool] at h
                cases h
          | none =>
            simp only [hsp] at h
            by_cases hname : String.mk (t.data.drop 2) = "to"
            · rw [if_pos hname] at h
              have hnd : t.data.drop 2 = "to".data := congrArg String.data hname
              have hft : tokenSetsLong "to" t = true := by
                unfold tokenSetsLong
                rw [hlong, hsp]
                simp [hnd]
              refine PreservesCli_step ht (ih _ _ _ _ _ h) ?_ ?_ ?_ ?_ ?_ ?_ ?_
              · intro hf
                rw [hft] at hf
                cases hf
              all_goals exact fun _ => rfl
            · rw [if_neg hname] at h
              by_cases hbool : boolOptionNames.contains (String.mk (t.data.drop 2)) = true
              · rw [if_pos hbool] at h
                have hmem : String.mk (t.data.drop 2) ∈ boolOptionNames := by
                  simpa using hbool
                have hpres := ih _ _ _ _ _ h
                simp only [boolOptionNames, List.mem_cons,
                  List.not_mem_nil, or_false] at hmem
                rcases hmem with hnm | hnm | hnm | hnm | hnm | hnm <;>
                  rw [hnm] at hpres <;>
                  have hnd := congrArg String.data hnm <;>
                  simp only [] at hnd <;>
                  (try simp at hnd) <;>
                  refine PreservesCli_step ht hpres ?_ ?_ ?_ ?_ ?_ ?_ ?_ <;>
                    first
                      | exact fun _ _ => ⟨rfl, rfl⟩
                      | exact fun _ => rfl
                      | (intro hf
                         rw [show tokenSetsLong _ t = true by
                           unfold tokenSetsLong
                           rw [hlong, hsp]
                           simp [hnd]] at hf
                         cases hf)
                      | (intro hf
                         rw [show tokenSetsHelp t = true by
                           unfold tokenSetsHelp tokenSetsLong
                           rw [hlong, hsp]
                           simp [hnd]] at hf
                         cases hf)
              · rw [if_neg hbool] at h
                cases h
        · rw [if_neg hlong] at h
          by_cases hshort : isShortTok t = true
          · rw [if_pos hshort] at h
            by_cases hall : (t.data.drop 1).all (fun x => x == 'h') = true
            · rw [if_pos hall] at h
              obtain ⟨c2, l2, hdrop⟩ := isShortTok_shape hshort
              have hc2 : c2 = 'h' := by
                rw [hdrop] at hall
                simp [List.all_cons] at hall
                exact hall.1
              have hhel : tokenSetsHelp t = true := by
                have hcont : (t.data.drop 1).contains 'h' = true := by
                  rw [hdrop, hc2]
                  simp [List.contains]
                unfold tokenSetsHelp
                rw [hshort, hcont]
                simp
              refine PreservesCli_step ht (ih _ _ _ _ _ h) ?_ ?_ ?_ ?_ ?_ ?_ ?_
              · exact fun _ _ => ⟨rfl, rfl⟩
              · exact fun _ => rfl
              · exact fun _ => rfl
              · exact fun _ => rfl
              · exact fun _ => rfl
              · exact fun _ => rfl
              · intro hf
                rw [hhel] at hf
                cases hf
            · rw [if_neg hall] at h
              cases h
          · rw [if_neg hshort] at h
            refine PreservesCli_step ht (ih _ _ _ _ _ h) ?_ ?_ ?_ ?_ ?_ ?_ ?_
            · exact fun _ _ => ⟨rfl, rfl⟩
            all_goals exact fun _ => rfl
    · -- a value for --to is pending
      by_cases hval : isOptionValueTok t = true
      · rw [if_pos hval] at h
        refine PreservesCli_step (isOptionValueTok_ne hval) (ih _ _ _ _ _ h)
          ?_ ?_ ?_ ?_ ?_ ?_ ?_
        · intro _ hp
          cases hp
        all_goals exact fun _ => rfl
      · rw [if_neg hval] at h
        cases h

/-! ### Claim C8 -/

/-- Claim C8: when `parseCliArgs` succeeds and the first positional is absent
or is not one of the four commands, the returned command is null; every
option whose tokens do not occur among the option arguments keeps its
default (`to = []`, all flags false); and with a null command and help off,
`main` prints the help text, exits with status 1, and runs no command. -/

theorem c8_parse_cli_defaults (argv : List String) (v : CliValues)
    (pos : List String) (r : ParsedArgs)
    (hp : parseTokens argv false initCliValues [] = .ok (v, pos))
    (hr : parseCliArgs argv = .ok r) :
    ((∀ s, pos.head? = some s → commandOfString s = none) → r.command = none) ∧
    (mentionsOpt (tokenSetsLong "to") argv = false → r.toTargets = []) ∧
    (mentionsOpt (tokenSetsLong "force") argv = false → r.force = false) ∧
    (mentionsOpt (tokenSetsLong "dry-run") argv = false → r.dryRun = false) ∧
    (mentionsOpt (tokenSetsLong "install-missing") argv = false →
      r.installMissing = false) ∧
    (mentionsOpt (tokenSetsLong "sync-removals") argv = false →
      r.syncRemovals = false) ∧
    (mentionsOpt (tokenSetsLong "sync-disabled") argv = false →
      r.syncDisabled = false) ∧
    (mentionsOpt tokenSetsHelp argv = false → r.help = false) ∧
    (r.command = none → r.help = false → mainRun r = ⟨true, some 1, none⟩) := by
  unfold parseCliArgs at hr
  rw [hp] at hr
  cases hr
  obtain ⟨p1, p2, p3, p4, p5, p6, p7⟩ :=
    parseTokens_preserves argv false initCliValues [] v pos hp
  refine ⟨?_, ?_, ?_, ?_, ?_, ?_, ?_, ?_, ?_⟩
  · intro hcmd
    cases hh : pos.head? with
    | none => simp [hh]
    | some s => simp [hh, hcmd s hh]
  · intro hm
    exact p1 hm rfl
  · intro hm
    exact p2 hm
  · intro hm
    exact p3 hm
  · intro hm
    exact p4 hm
  · intro hm
    exact p5 hm
  · intro hm
    exact p6 hm
  · intro hm
    exact p7 hm
  · intro hc hh
    have hcmd : pos.head?.bind commandOfString = none := hc
    have hhelp : v.help = false := hh
    simp [mainRun, hcmd, hhelp]

/-- Witness for C8: `argv = ["bogus"]` parses with an unknown first
positional; the command is null, all options default, and `main` shows help
with exit status 1 without running anything. -/

theorem c8_parse_cli_defaults_witness :
    parseCliArgs ["bogus"] =
      .ok ⟨none, [], false, false, false, false, false, false⟩ ∧
    (⟨none, [], false, false, false, false, false, false⟩ : ParsedArgs).command
      = none ∧
    mainRun ⟨none, [], false, false, false, false, false, false⟩ =
      ⟨true, some 1, none⟩ := by
  have h := c8_parse_cli_defaults ["bogus"] initCliValues ["bogus"]
    ⟨none, [], false, false, false, false, false, false⟩ (by rfl) (by rfl)
  exact ⟨by rfl, h.1 (fun s hs => by cases hs; decide),
    h.2.2.2.2.2.2.2.2 (h.1 (fun s hs => by cases hs; decide)) (h.2.2.2.2.2.2.2.1 (by decide))⟩

/-! ### Claim C9 -/

/-- Claim C9, counterexample: `["sync"]` and `["sync", "--help"]` both parse
to command `sync` with the same (empty) `--to` list, yet `main` invokes
`runSync` for the first and nothing at all for the second (it prints help
and exits), so the claim as stated — that any two such argv lists lead to a
`runSync` invocation with identical arguments — is false. -/

theorem c9_counterexample :
    (parseCliArgs ["sync"]).map
        (fun r => (r.command, r.toTargets, (mainRun r).invoked)) =
      .ok (some .sync, [], some (.syncCall [])) ∧
    (parseCliArgs ["sync", "--help"]).map
        (fun r => (r.command, r.toTargets, (mainRun r).invoked)) =
      .ok (some .sync, [], none) := by
  exact ⟨by rfl, by rfl⟩

/-- Claim C9 (amended): for any two argv lists that parse to command `sync`
with the same `--to` values and with help off, `main` behaves identically
and invokes `runSync` with only the `to` list — the policy flags `--force`,
`--dry-run`, `--install-missing`, `--sync-removals`, `--sync-disabled` are
not forwarded to `sync` (they are forwarded only for `install`). -/

theorem c9_sync_flag_independence (argv₁ argv₂ : List String)
    (r₁ r₂ : ParsedArgs)
    (h₁ : parseCliArgs argv₁ = .ok r₁) (h₂ : parseCliArgs argv₂ = .ok r₂)
    (hc₁ : r₁.command = some .sync) (hc₂ : r₂.command = some .sync)
    (hto : r₁.toTargets = r₂.toTargets)
    (hh₁ : r₁.help = false) (hh₂ : r₂.help = false) :
    mainRun r₁ = mainRun r₂ ∧
    mainRun r₁ = ⟨false, none, some (.syncCall r₁.toTargets)⟩ := by
  constructor
  · simp [mainRun, hc₁, hc₂, hh₁, hh₂, hto]
  · simp [mainRun, hc₁, hh₁]

/-- Witness for C9: two concrete argv lists with entirely different policy
flags lead `main` to the same `runSync` invocation. -/

theorem c9_sync_flag_independence_witness :
    parseCliArgs ["sync", "--force", "--dry-run"] =
      .ok ⟨some .sync, [], true, true, false, false, false, false⟩ ∧
    parseCliArgs ["sync", "--install-missing"] =
      .ok ⟨some .sync, [], false, false, true, false, false, false⟩ ∧
    mainRun ⟨some .sync, [], true, true, false, false, false, false⟩ =
      mainRun ⟨some .sync, [], false, false, true, false, false, false⟩ ∧
    mainRun ⟨some .sync, [], true, true, false, false, false, false⟩ =
      ⟨false, none, some (.syncCall [])⟩ := by
  have h := c9_sync_flag_independence ["sync", "--force", "--dry-run"]
    ["sync", "--install-missing"]
    ⟨some .sync, [], true, true, false, false, false, false⟩
    ⟨some .sync, [], false, false, true, false, false, false⟩
    (by rfl) (by rfl) rfl rfl rfl rfl rfl
  exact ⟨by rfl, by rfl, h.1, h.2⟩

end VsixMirror
